import Mathlib

/-!
Verification of the CocoaPods dependency reference-counting and
manifest-synchronization engine of cordova-ios.

The engine lives in src/lib/Api.js (functions getVariableSpec,
replacePodSpecVariables, the flag helper, and the methods
Api.prototype.addPodSpecs and Api.prototype.removePodSpecs).  The two
collaborating stores, PodsJson (the persistent reference-count ledger)
and Podfile (the declarative build manifest with dirty tracking), are
not part of the provided sources; their operations are modelled from
the specification and marked as such in their doc comments.
-/

namespace CordovaPods

/-- A JavaScript-like scalar value, as it occurs in a podspec entry.
Strict equality of the source is modelled by constructor equality. -/
inductive JSVal where
  | str (s : String)
  | bool (b : Bool)
  | num (n : Int)
deriving DecidableEq, Repr

/-- ASCII lowercasing of a string, character by character, modelling
the toLowerCase call of the flag helper. -/
def jsToLower (s : String) : String :=
  String.mk (s.data.map Char.toLower)

/-- Translation of the flag helper of src/lib/Api.js: the value is true,
or a string equal to true case-insensitively, or the number 1. -/
def _isTrue : JSVal → Bool
  | JSVal.bool b => b
  | JSVal.str s => jsToLower s == "true"
  | JSVal.num n => n == 1

/-- A possibly-absent flag field: an absent property is not a true flag. -/
def isTrueFlag : Option JSVal → Bool
  | some v => _isTrue v
  | none => false

/-- A library payload of a podspec (obj.libraries entry of Api.js).
Absent properties are modelled by none. -/
structure Pod where
  name : String
  spec : Option String := none
  tag : Option String := none
  git : Option String := none
  commit : Option String := none
  branch : Option String := none
  nospm : Option JSVal := none
deriving DecidableEq, Repr

/-- Install or uninstall options: the variable mapping used by
variable resolution (options.cli_variables in Api.js). -/
structure Options where
  cli_variables : List (String × String)
deriving DecidableEq, Repr

/-- First-match association-list lookup, modelling JavaScript object
property access for the stores keyed by strings. -/
def lookupKey {α : Type} : List (String × α) → String → Option α
  | [], _ => none
  | (k2, v) :: rest, k => if k2 = k then some v else lookupKey rest k

/-- Update the binding of a key in place, or append it when absent. -/
def setAssoc {α : Type} : List (String × α) → String → α → List (String × α)
  | [], k, v => [(k, v)]
  | (k2, v2) :: rest, k, v =>
      if k2 = k then (k, v) :: rest else (k2, v2) :: setAssoc rest k v

/-- Remove every binding of a key from an association list. -/
def removeKeyAll {α : Type} : List (String × α) → String → List (String × α)
  | [], _ => []
  | (k2, v) :: rest, k =>
      if k2 = k then removeKeyAll rest k else (k2, v) :: removeKeyAll rest k

/-- Remove every occurrence of an element from a list of strings. -/
def removeAll : List String → String → List String
  | [], _ => []
  | x :: rest, d => if x = d then removeAll rest d else x :: removeAll rest d

/-- Removal of the first occurrence of the dollar character, the
behaviour of the replace call of getVariableSpec in src/lib/Api.js. -/
def removeFirstDollarAux : List Char → List Char
  | [] => []
  | c :: cs => if c = '$' then cs else c :: removeFirstDollarAux cs

/-- String wrapper of removeFirstDollarAux. -/
def removeFirstDollar (s : String) : String :=
  String.mk (removeFirstDollarAux s.data)

/-- Character membership in a string, modelling the includes call of
getVariableSpec. -/
def hasDollar (s : String) : Bool :=
  s.data.contains '$'

/-- Translation of getVariableSpec of src/lib/Api.js: a value holding a
dollar sign is looked up in the variable mapping under the value with
its first dollar removed; any other value passes through unchanged.  An
absent variable yields none (undefined in the source), no error. -/
def getVariableSpec (spec : String) (options : Options) : Option String :=
  if hasDollar spec then lookupKey options.cli_variables (removeFirstDollar spec)
  else some spec

/-- One field step of replacePodSpecVariables: the source only rewrites
fields that are truthy, so an absent field or an empty string is kept. -/
def resolveField (options : Options) (f : Option String) : Option String :=
  match f with
  | none => none
  | some s => if s = "" then some s else getVariableSpec s options

/-- Translation of replacePodSpecVariables of src/lib/Api.js: resolve
the five mutable pin fields of a library payload, leaving the name and
the flags untouched. -/
def replacePodSpecVariables (pod : Pod) (options : Options) : Pod :=
  { pod with
    spec := resolveField options pod.spec
    tag := resolveField options pod.tag
    git := resolveField options pod.git
    commit := resolveField options pod.commit
    branch := resolveField options pod.branch }

/-- Modelled from the spec: Podfile.proofDeclaration (lib/Podfile.js,
not included in the provided sources) normalizes a declaration line;
the specification treats the declaration text itself as the stable key
of the unit, so the normalization is modelled as the identity. -/
def proofDeclaration (d : String) : String := d

/-- Modelled from the spec: the persistent reference-count ledger
(lib/PodsJson.js, not included in the provided sources).  Three
mappings keyed by stable identity; a declaration entry is its own
payload, a source entry carries its URL, a library entry carries the
registered payload.  Every entry carries a count that is a natural
number, never negative. -/
structure PodsJson where
  declarations : List (String × Nat)
  sources : List (String × (String × Nat))
  libraries : List (String × (Pod × Nat))
deriving DecidableEq, Repr

/-- Modelled from the spec: ledger read of a declaration entry. -/
def PodsJson.getDeclaration (pj : PodsJson) (k : String) : Option Nat :=
  lookupKey pj.declarations k

/-- Modelled from the spec: ledger read of a source entry. -/
def PodsJson.getSource (pj : PodsJson) (k : String) : Option (String × Nat) :=
  lookupKey pj.sources k

/-- Modelled from the spec: ledger read of a library entry. -/
def PodsJson.getLibrary (pj : PodsJson) (k : String) : Option (Pod × Nat) :=
  lookupKey pj.libraries k

/-- Modelled from the spec: create or overwrite a declaration entry. -/
def PodsJson.setJsonDeclaration (pj : PodsJson) (k : String) (c : Nat) : PodsJson :=
  { pj with declarations := setAssoc pj.declarations k c }

/-- Modelled from the spec: create or overwrite a source entry. -/
def PodsJson.setJsonSource (pj : PodsJson) (k : String) (e : String × Nat) : PodsJson :=
  { pj with sources := setAssoc pj.sources k e }

/-- Modelled from the spec: create or overwrite a library entry. -/
def PodsJson.setJsonLibrary (pj : PodsJson) (k : String) (e : Pod × Nat) : PodsJson :=
  { pj with libraries := setAssoc pj.libraries k e }

/-- Modelled from the spec: increment of an existing declaration count;
absent keys are left alone (callers create entries first). -/
def PodsJson.incrementDeclaration (pj : PodsJson) (k : String) : PodsJson :=
  match lookupKey pj.declarations k with
  | some c => pj.setJsonDeclaration k (c + 1)
  | none => pj

/-- Modelled from the spec: increment of an existing source count. -/
def PodsJson.incrementSource (pj : PodsJson) (k : String) : PodsJson :=
  match lookupKey pj.sources k with
  | some (u, c) => pj.setJsonSource k (u, c + 1)
  | none => pj

/-- Modelled from the spec: increment of an existing library count,
keeping the registered payload. -/
def PodsJson.incrementLibrary (pj : PodsJson) (k : String) : PodsJson :=
  match lookupKey pj.libraries k with
  | some (p, c) => pj.setJsonLibrary k (p, c + 1)
  | none => pj

/-- Modelled from the spec: decrement of a declaration count, floored
at zero, entry retained; absent keys are a no-op. -/
def PodsJson.decrementDeclaration (pj : PodsJson) (k : String) : PodsJson :=
  match lookupKey pj.declarations k with
  | some c => pj.setJsonDeclaration k (c - 1)
  | none => pj

/-- Modelled from the spec: decrement of a source count, floored at
zero. -/
def PodsJson.decrementSource (pj : PodsJson) (k : String) : PodsJson :=
  match lookupKey pj.sources k with
  | some (u, c) => pj.setJsonSource k (u, c - 1)
  | none => pj

/-- Modelled from the spec: decrement of a library count, floored at
zero, keeping the registered payload. -/
def PodsJson.decrementLibrary (pj : PodsJson) (k : String) : PodsJson :=
  match lookupKey pj.libraries k with
  | some (p, c) => pj.setJsonLibrary k (p, c - 1)
  | none => pj

/-- Modelled from the spec: the structured content of the build
manifest, ordered declarations, source URLs and library specs keyed by
pod name (lib/Podfile.js, not included in the provided sources). -/
structure Manifest where
  declarations : List String
  sources : List String
  specs : List (String × Pod)
deriving DecidableEq, Repr

/-- Modelled from the spec: append a declaration line unless already
present. -/
def Manifest.addDeclaration (m : Manifest) (d : String) : Manifest :=
  if d ∈ m.declarations then m
  else { m with declarations := m.declarations ++ [d] }

/-- Modelled from the spec: remove a declaration line if present. -/
def Manifest.removeDeclaration (m : Manifest) (d : String) : Manifest :=
  { m with declarations := removeAll m.declarations d }

/-- Modelled from the spec: append a source URL unless already present. -/
def Manifest.addSource (m : Manifest) (u : String) : Manifest :=
  if u ∈ m.sources then m else { m with sources := m.sources ++ [u] }

/-- Modelled from the spec: remove a source URL if present. -/
def Manifest.removeSource (m : Manifest) (u : String) : Manifest :=
  { m with sources := removeAll m.sources u }

/-- Modelled from the spec: add the library spec registered under a pod
name, updating the binding in place when the name is already there. -/
def Manifest.addSpec (m : Manifest) (name : String) (p : Pod) : Manifest :=
  { m with specs := setAssoc m.specs name p }

/-- Modelled from the spec: remove the library spec of a pod name. -/
def Manifest.removeSpec (m : Manifest) (name : String) : Manifest :=
  { m with specs := removeKeyAll m.specs name }

/-- Modelled from the spec: the in-memory manifest writer, holding the
content loaded from disk at call start and the current content; the
dirty flag is the comparison of the two. -/
structure PodfileMem where
  loaded : Manifest
  current : Manifest
deriving DecidableEq, Repr

/-- Modelled from the spec: dirty exactly when the current content
differs from what was loaded. -/
def PodfileMem.isDirty (pf : PodfileMem) : Bool :=
  if pf.current = pf.loaded then false else true

/-- Manifest writer wrapper: add a declaration to the current content. -/
def PodfileMem.addDeclaration (pf : PodfileMem) (d : String) : PodfileMem :=
  { pf with current := pf.current.addDeclaration d }

/-- Manifest writer wrapper: remove a declaration. -/
def PodfileMem.removeDeclaration (pf : PodfileMem) (d : String) : PodfileMem :=
  { pf with current := pf.current.removeDeclaration d }

/-- Manifest writer wrapper: add a source URL. -/
def PodfileMem.addSource (pf : PodfileMem) (u : String) : PodfileMem :=
  { pf with current := pf.current.addSource u }

/-- Manifest writer wrapper: remove a source URL. -/
def PodfileMem.removeSource (pf : PodfileMem) (u : String) : PodfileMem :=
  { pf with current := pf.current.removeSource u }

/-- Manifest writer wrapper: add a library spec. -/
def PodfileMem.addSpec (pf : PodfileMem) (name : String) (p : Pod) : PodfileMem :=
  { pf with current := pf.current.addSpec name p }

/-- Manifest writer wrapper: remove a library spec. -/
def PodfileMem.removeSpec (pf : PodfileMem) (name : String) : PodfileMem :=
  { pf with current := pf.current.removeSpec name }

/-- One element of the podSpecs array handed to addPodSpecs and
removePodSpecs.  A section that the plugin did not declare is none,
matching an absent JavaScript property. -/
structure PodSpecObj where
  declarations : Option (List (String × JSVal)) := none
  sources : Option (List (String × String)) := none
  libraries : Option (List (String × Pod)) := none
deriving DecidableEq, Repr

/-- A structured record of the conflict warning emitted on installing a
library whose key is already registered: it names the installing
plugin, the pod name of the resolved payload, and the spec of the
already-registered payload. -/
structure Warning where
  pluginId : String
  podName : String
  installedSpec : Option String
deriving DecidableEq, Repr

/-- A structured record of the recovery messages logged by
removePodSpecs when a unit is missing from the ledger. -/
inductive LogEntry where
  | recoveryDeclaration (pluginId : String) (declaration : String)
  | recoverySource (pluginId : String) (source : String)
  | recoveryLibrary (pluginId : String) (podName : String)
deriving DecidableEq, Repr

/-- The error raised by an unguarded property enumeration over an
absent podspec section in removePodSpecs. -/
inductive JsError where
  | typeError
deriving DecidableEq, Repr

/-- In-memory state threaded through the install loop of addPodSpecs. -/
structure InstallState where
  pods : PodsJson
  podfile : PodfileMem
  warnings : List Warning
deriving DecidableEq, Repr

/-- In-memory state threaded through the uninstall loop of
removePodSpecs. -/
structure RemoveState where
  pods : PodsJson
  podfile : PodfileMem
  logs : List LogEntry
deriving DecidableEq, Repr

/-- Translation of the declarations branch of the install loop of
addPodSpecs: a declaration is processed only when its value is exactly
the string true; an existing ledger entry is incremented, otherwise an
entry of count 1 is created and the declaration is added to the
manifest. -/
def processDeclAdd (st : InstallState) (key : String) (v : JSVal) : InstallState :=
  if v = JSVal.str "true" then
    let d := proofDeclaration key
    match st.pods.getDeclaration d with
    | some _ => { st with pods := st.pods.incrementDeclaration d }
    | none =>
        { st with
          pods := st.pods.setJsonDeclaration d 1
          podfile := st.podfile.addDeclaration d }
  else st

/-- Translation of the sources branch of the install loop of
addPodSpecs. -/
def processSourceAdd (st : InstallState) (key : String) (url : String) : InstallState :=
  match st.pods.getSource key with
  | some _ => { st with pods := st.pods.incrementSource key }
  | none =>
      { st with
        pods := st.pods.setJsonSource key (url, 1)
        podfile := st.podfile.addSource url }

/-- The guarded body of the libraries branch of the install loop of
addPodSpecs: resolve the payload, then warn and increment when the key
is already registered, else create the ledger entry and add the spec
to the manifest. -/
def processLibAddCore (pluginId : String) (opts : Options) (st : InstallState)
    (key : String) (pod0 : Pod) : InstallState :=
  let pod := replacePodSpecVariables pod0 opts
  match st.pods.getLibrary key with
  | some (installed, _) =>
      { st with
        warnings := st.warnings ++ [⟨pluginId, pod.name, installed.spec⟩]
        pods := st.pods.incrementLibrary key }
  | none =>
      { st with
        pods := st.pods.setJsonLibrary key (pod, 1)
        podfile := st.podfile.addSpec pod.name pod }

/-- Translation of the libraries branch of the install loop of
addPodSpecs, including the packaging-mode guard of the source: under
Swift-package packaging a library whose nospm flag is true is skipped
entirely. -/
def processLibAdd (pluginId : String) (isSPM : Bool) (opts : Options)
    (st : InstallState) (key : String) (pod0 : Pod) : InstallState :=
  if !isSPM || (isSPM && !(isTrueFlag pod0.nospm)) then
    processLibAddCore pluginId opts st key pod0
  else st

/-- Translation of the processing of one podspec object in addPodSpecs:
each of the three sections is guarded and skipped when absent (an
absent section contributes no units, folded as the empty list). -/
def processObjAdd (pluginId : String) (isSPM : Bool) (opts : Options)
    (st : InstallState) (obj : PodSpecObj) : InstallState :=
  let st1 := (obj.declarations.getD []).foldl
    (fun s kv => processDeclAdd s kv.1 kv.2) st
  let st2 := (obj.sources.getD []).foldl
    (fun s kv => processSourceAdd s kv.1 kv.2) st1
  (obj.libraries.getD []).foldl
    (fun s kv => processLibAdd pluginId isSPM opts s kv.1 kv.2) st2

/-- Translation of the declarations branch of the uninstall loop of
removePodSpecs.  The ledger read is taken before the decrement, but the
count consulted afterwards is the aliased, post-decrement value of the
same entry; removal from the manifest happens when the entry was
absent or that post-decrement count is zero. -/
def processDeclRemove (pluginId : String) (st : RemoveState)
    (key : String) (v : JSVal) : RemoveState :=
  if v = JSVal.str "true" then
    let d := proofDeclaration key
    match st.pods.getDeclaration d with
    | some c =>
        let st2 := { st with pods := st.pods.decrementDeclaration d }
        if c - 1 = 0 then { st2 with podfile := st2.podfile.removeDeclaration d }
        else st2
    | none =>
        let st2 := { st with logs := st.logs ++ [LogEntry.recoveryDeclaration pluginId d] }
        { st2 with podfile := st2.podfile.removeDeclaration d }
  else st

/-- Translation of the sources branch of the uninstall loop of
removePodSpecs, with the same post-decrement removal rule. -/
def processSourceRemove (pluginId : String) (st : RemoveState)
    (key : String) (url : String) : RemoveState :=
  match st.pods.getSource key with
  | some (_, c) =>
      let st2 := { st with pods := st.pods.decrementSource key }
      if c - 1 = 0 then { st2 with podfile := st2.podfile.removeSource url }
      else st2
  | none =>
      let st2 := { st with logs := st.logs ++ [LogEntry.recoverySource pluginId url] }
      { st2 with podfile := st2.podfile.removeSource url }

/-- The guarded body of the libraries branch of the uninstall loop of
removePodSpecs. -/
def processLibRemoveCore (pluginId : String) (opts : Options)
    (st : RemoveState) (key : String) (pod0 : Pod) : RemoveState :=
  let pod := replacePodSpecVariables pod0 opts
  match st.pods.getLibrary key with
  | some (_, c) =>
      let st2 := { st with pods := st.pods.decrementLibrary key }
      if c - 1 = 0 then { st2 with podfile := st2.podfile.removeSpec pod.name }
      else st2
  | none =>
      let st2 := { st with logs := st.logs ++ [LogEntry.recoveryLibrary pluginId pod.name] }
      { st2 with podfile := st2.podfile.removeSpec pod.name }

/-- Translation of the libraries branch of the uninstall loop of
removePodSpecs, including the packaging-mode guard. -/
def processLibRemove (pluginId : String) (isSPM : Bool) (opts : Options)
    (st : RemoveState) (key : String) (pod0 : Pod) : RemoveState :=
  if !isSPM || (isSPM && !(isTrueFlag pod0.nospm)) then
    processLibRemoveCore pluginId opts st key pod0
  else st

/-- Translation of the processing of one podspec object in
removePodSpecs: unlike the install loop, the three sections are
enumerated without a guard, so an absent section raises a type error. -/
def processObjRemove (pluginId : String) (isSPM : Bool) (opts : Options)
    (st : RemoveState) (obj : PodSpecObj) : Except JsError RemoveState :=
  match obj.declarations with
  | none => Except.error JsError.typeError
  | some ds =>
    let st1 := ds.foldl (fun s kv => processDeclRemove pluginId s kv.1 kv.2) st
    match obj.sources with
    | none => Except.error JsError.typeError
    | some ss =>
      let st2 := ss.foldl (fun s kv => processSourceRemove pluginId s kv.1 kv.2) st1
      match obj.libraries with
      | none => Except.error JsError.typeError
      | some ls =>
          Except.ok (ls.foldl (fun s kv => processLibRemove pluginId isSPM opts s kv.1 kv.2) st2)

/-- Error-propagating fold of processObjRemove over the podspec list. -/
def foldObjsRemove (pluginId : String) (isSPM : Bool) (opts : Options) :
    List PodSpecObj → RemoveState → Except JsError RemoveState
  | [], st => Except.ok st
  | o :: os, st =>
      match processObjRemove pluginId isSPM opts st o with
      | Except.ok st2 => foldObjsRemove pluginId isSPM opts os st2
      | Except.error e => Except.error e

/-- The persisted state a reconciliation call starts from and leaves
behind: the ledger file and the manifest file. -/
structure DiskState where
  pods : PodsJson
  manifest : Manifest
deriving DecidableEq, Repr

/-- Externally observable effects of one reconciliation call. -/
structure Effects where
  ledgerWrites : Nat
  manifestWritten : Bool
  installerInvoked : Bool
  warnings : List Warning
  logs : List LogEntry
deriving DecidableEq, Repr

/-- The effects of a call that returned before touching anything. -/
def noEffects : Effects :=
  { ledgerWrites := 0, manifestWritten := false, installerInvoked := false
    warnings := [], logs := [] }

/-- Translation of Api.prototype.addPodSpecs over the persisted state:
an empty podspec list returns at once; otherwise all units are
processed, the ledger is written exactly once, and the manifest is
written and the external installer invoked only when the manifest is
dirty. -/
def runAddPodSpecs (pluginId : String) (podSpecs : List PodSpecObj)
    (opts : Options) (isSPM : Bool) (s : DiskState) : DiskState × Effects :=
  if podSpecs.isEmpty then (s, noEffects)
  else
    let st0 : InstallState :=
      { pods := s.pods
        podfile := { loaded := s.manifest, current := s.manifest }
        warnings := [] }
    let st := podSpecs.foldl (processObjAdd pluginId isSPM opts) st0
    let dirty := st.podfile.isDirty
    ({ pods := st.pods
       manifest := if dirty then st.podfile.current else s.manifest },
     { ledgerWrites := 1, manifestWritten := dirty, installerInvoked := dirty
       warnings := st.warnings, logs := [] })

/-- Translation of Api.prototype.removePodSpecs over the persisted
state: an empty podspec list is a no-op; a missing section of any
podspec object raises the type error of the unguarded enumeration;
otherwise the ledger is written exactly once and the manifest written
and the installer invoked only when dirty. -/
def runRemovePodSpecs (pluginId : String) (podSpecs : List PodSpecObj)
    (opts : Options) (isSPM : Bool) (s : DiskState) :
    Except JsError (DiskState × Effects) :=
  if podSpecs.isEmpty then Except.ok (s, noEffects)
  else
    let st0 : RemoveState :=
      { pods := s.pods
        podfile := { loaded := s.manifest, current := s.manifest }
        logs := [] }
    match foldObjsRemove pluginId isSPM opts podSpecs st0 with
    | Except.error e => Except.error e
    | Except.ok st =>
        let dirty := st.podfile.isDirty
        Except.ok
          ({ pods := st.pods
             manifest := if dirty then st.podfile.current else s.manifest },
           { ledgerWrites := 1, manifestWritten := dirty, installerInvoked := dirty
             warnings := [], logs := st.logs })

/-- The empty ledger. -/
def emptyPods : PodsJson := ⟨[], [], []⟩

/-- The empty manifest content. -/
def emptyManifest : Manifest := ⟨[], [], []⟩

/-- A manifest writer freshly loaded from the empty manifest. -/
def emptyPodfile : PodfileMem := ⟨emptyManifest, emptyManifest⟩

/-- An install loop state over empty stores. -/
def st0Install : InstallState := ⟨emptyPods, emptyPodfile, []⟩

/-- An uninstall loop state over empty stores. -/
def st0Remove : RemoveState := ⟨emptyPods, emptyPodfile, []⟩

/-- Options with no variables. -/
def optsNone : Options := ⟨[]⟩

/-- A concrete library payload used by the scenarios of the spec. -/
def podAF : Pod := { name := "AFNetworking", spec := some "~> 4.0" }

/-- An install state whose ledger already registers podAF under its key
with count one. -/
def stC3 : InstallState :=
  ⟨⟨[], [], [("AFNetworking", (podAF, 1))]⟩, emptyPodfile, []⟩

/-- A podspec object carrying exactly one declaration unit. -/
def objDecl : PodSpecObj :=
  { declarations := some [("d", JSVal.str "true")],
    sources := some [], libraries := some [] }

/-- The empty persisted state. -/
def diskEmpty : DiskState := ⟨emptyPods, emptyManifest⟩

/-- A persisted state with the declaration registered at count two. -/
def diskD2 : DiskState := ⟨⟨[("d", 2)], [], []⟩, ⟨["d"], [], []⟩⟩

/-- A persisted state with the declaration registered at count one. -/
def diskD1 : DiskState := ⟨⟨[("d", 1)], [], []⟩, ⟨["d"], [], []⟩⟩

/-- The effects of a call that wrote the ledger but found the manifest
clean. -/
def effQuiet : Effects :=
  { ledgerWrites := 1, manifestWritten := false, installerInvoked := false,
    warnings := [], logs := [] }

/-- The declaration counts of the second ledger extend those of the
first: same keys, counts not decreased. -/
def declsOnlyInc (a b : List (String × Nat)) : Prop :=
  ∀ k, (lookupKey a k = none ∧ lookupKey b k = none) ∨
       (∃ c c2, lookupKey a k = some c ∧ lookupKey b k = some c2 ∧ c ≤ c2)

/-- The source entries of the second ledger keep the payloads of the
first and do not decrease counts, over the same keys. -/
def srcsOnlyInc (a b : List (String × (String × Nat))) : Prop :=
  ∀ k, (lookupKey a k = none ∧ lookupKey b k = none) ∨
       (∃ u c c2, lookupKey a k = some (u, c) ∧ lookupKey b k = some (u, c2) ∧ c ≤ c2)

/-- The library entries of the second ledger keep the payloads of the
first and do not decrease counts, over the same keys. -/
def libsOnlyInc (a b : List (String × (Pod × Nat))) : Prop :=
  ∀ k, (lookupKey a k = none ∧ lookupKey b k = none) ∨
       (∃ p c c2, lookupKey a k = some (p, c) ∧ lookupKey b k = some (p, c2) ∧ c ≤ c2)

/-- The second ledger differs from the first only by incremented
reference counts. -/
def podsOnlyInc (a b : PodsJson) : Prop :=
  declsOnlyInc a.declarations b.declarations ∧
  srcsOnlyInc a.sources b.sources ∧
  libsOnlyInc a.libraries b.libraries

/-- A declaration unit that the install loop would process has its key
in the ledger. -/
def declUnitCovered (pj : PodsJson) (kv : String × JSVal) : Prop :=
  kv.2 = JSVal.str "true" → (pj.getDeclaration (proofDeclaration kv.1)).isSome = true

/-- A source unit has its key in the ledger. -/
def srcUnitCovered (pj : PodsJson) (kv : String × String) : Prop :=
  (pj.getSource kv.1).isSome = true

/-- A library unit that the packaging guard lets through has its key in
the ledger. -/
def libUnitCovered (isSPM : Bool) (pj : PodsJson) (kv : String × Pod) : Prop :=
  (!isSPM || (isSPM && !(isTrueFlag kv.2.nospm))) = true →
  (pj.getLibrary kv.1).isSome = true

/-- Every unit of one podspec object that the install loop would
process already has its key in the ledger. -/
def objCovered (isSPM : Bool) (pj : PodsJson) (obj : PodSpecObj) : Prop :=
  (∀ kv ∈ obj.declarations.getD [], declUnitCovered pj kv) ∧
  (∀ kv ∈ obj.sources.getD [], srcUnitCovered pj kv) ∧
  (∀ kv ∈ obj.libraries.getD [], libUnitCovered isSPM pj kv)

/-- Every unit of a podspec list that the install loop would process
already has its key in the ledger. -/
def specsCovered (isSPM : Bool) (pj : PodsJson) (specs : List PodSpecObj) : Prop :=
  ∀ obj ∈ specs, objCovered isSPM pj obj

/-- Every key present in the first ledger is present in the second. -/
def presenceLe (a b : PodsJson) : Prop :=
  (∀ k, (lookupKey a.declarations k).isSome = true →
        (lookupKey b.declarations k).isSome = true) ∧
  (∀ k, (lookupKey a.sources k).isSome = true →
        (lookupKey b.sources k).isSome = true) ∧
  (∀ k, (lookupKey a.libraries k).isSome = true →
        (lookupKey b.libraries k).isSome = true)

/-- Every ledger entry has its counterpart in the manifest content: the
declaration line, the source URL, and a spec under the registered pod
name. -/
def consistentState (pj : PodsJson) (m : Manifest) : Prop :=
  (∀ k c, lookupKey pj.declarations k = some c → k ∈ m.declarations) ∧
  (∀ k u c, lookupKey pj.sources k = some (u, c) → u ∈ m.sources) ∧
  (∀ k p c, lookupKey pj.libraries k = some (p, c) →
     (lookupKey m.specs p.name).isSome = true)

/-- Every unit of one podspec object that install would process has a
corresponding entry in the manifest, mediated by its ledger entry
(first-writer-wins keeps the registered payload, not necessarily the
requested one). -/
def objEntriesPresent (isSPM : Bool) (pj : PodsJson) (m : Manifest)
    (obj : PodSpecObj) : Prop :=
  (∀ kv ∈ obj.declarations.getD [], kv.2 = JSVal.str "true" →
     proofDeclaration kv.1 ∈ m.declarations) ∧
  (∀ kv ∈ obj.sources.getD [],
     ∃ u c, lookupKey pj.sources kv.1 = some (u, c) ∧ u ∈ m.sources) ∧
  (∀ kv ∈ obj.libraries.getD [],
     (!isSPM || (isSPM && !(isTrueFlag kv.2.nospm))) = true →
     ∃ p c, lookupKey pj.libraries kv.1 = some (p, c) ∧
       (lookupKey m.specs p.name).isSome = true)

/-- Every unit of a podspec list that install would process has a
corresponding entry in the manifest. -/
def specsEntriesPresent (isSPM : Bool) (pj : PodsJson) (m : Manifest)
    (specs : List PodSpecObj) : Prop :=
  ∀ obj ∈ specs, objEntriesPresent isSPM pj m obj

theorem lookupKey_setAssoc_self {α : Type} (l : List (String × α)) (k : String) (v : α) :
    lookupKey (setAssoc l k v) k = some v := by
  induction l with
  | nil => simp [setAssoc, lookupKey]
  | cons hd tl ih =>
      obtain ⟨k2, v2⟩ := hd
      by_cases h : k2 = k
      · simp [setAssoc, h, lookupKey]
      · simp [setAssoc, h, lookupKey, ih]

theorem lookupKey_setAssoc_other {α : Type} (l : List (String × α)) (k k2 : String)
    (v : α) (h : k2 ≠ k) :
    lookupKey (setAssoc l k v) k2 = lookupKey l k2 := by
  induction l with
  | nil => simp [setAssoc, lookupKey, Ne.symm h]
  | cons hd tl ih =>
      obtain ⟨k3, v3⟩ := hd
      by_cases h3 : k3 = k
      · subst h3
        simp [setAssoc, lookupKey, Ne.symm h]
      · simp [setAssoc, h3, lookupKey, ih]

theorem isSome_lookupKey_setAssoc {α : Type} (l : List (String × α)) (k k2 : String)
    (v : α) (h : (lookupKey l k2).isSome = true) :
    (lookupKey (setAssoc l k v) k2).isSome = true := by
  by_cases hk : k2 = k
  · subst hk; simp [lookupKey_setAssoc_self]
  · rw [lookupKey_setAssoc_other l k k2 v hk]; exact h

theorem lookupKey_removeKeyAll_self {α : Type} (l : List (String × α)) (k : String) :
    lookupKey (removeKeyAll l k) k = none := by
  induction l with
  | nil => rfl
  | cons hd tl ih =>
      obtain ⟨k2, v2⟩ := hd
      by_cases h : k2 = k
      · simp [removeKeyAll, h, ih]
      · simp [removeKeyAll, h, lookupKey, ih]

theorem mem_addDeclaration_self (m : Manifest) (d : String) :
    d ∈ (m.addDeclaration d).declarations := by
  unfold Manifest.addDeclaration
  by_cases h : d ∈ m.declarations
  · simp [h]
  · simp [h]

theorem addDeclaration_of_not_mem (m : Manifest) (d : String)
    (h : d ∉ m.declarations) :
    (m.addDeclaration d).declarations = m.declarations ++ [d] := by
  simp [Manifest.addDeclaration, h]

theorem mem_addDeclaration_mono (m : Manifest) (d x : String)
    (h : x ∈ m.declarations) : x ∈ (m.addDeclaration d).declarations := by
  unfold Manifest.addDeclaration
  by_cases hd : d ∈ m.declarations
  · simpa [hd]
  · simp [hd, h]

theorem addDeclaration_sources (m : Manifest) (d : String) :
    (m.addDeclaration d).sources = m.sources := by
  unfold Manifest.addDeclaration
  by_cases hd : d ∈ m.declarations <;> simp [hd]

theorem addDeclaration_specs (m : Manifest) (d : String) :
    (m.addDeclaration d).specs = m.specs := by
  unfold Manifest.addDeclaration
  by_cases hd : d ∈ m.declarations <;> simp [hd]

theorem mem_addSource_self (m : Manifest) (u : String) :
    u ∈ (m.addSource u).sources := by
  unfold Manifest.addSource
  by_cases h : u ∈ m.sources
  · simp [h]
  · simp [h]

theorem addSource_of_not_mem (m : Manifest) (u : String)
    (h : u ∉ m.sources) : (m.addSource u).sources = m.sources ++ [u] := by
  simp [Manifest.addSource, h]

theorem mem_addSource_mono (m : Manifest) (u x : String)
    (h : x ∈ m.sources) : x ∈ (m.addSource u).sources := by
  unfold Manifest.addSource
  by_cases hu : u ∈ m.sources
  · simpa [hu]
  · simp [hu, h]

theorem addSource_declarations (m : Manifest) (u : String) :
    (m.addSource u).declarations = m.declarations := by
  unfold Manifest.addSource
  by_cases hu : u ∈ m.sources <;> simp [hu]

theorem addSource_specs (m : Manifest) (u : String) :
    (m.addSource u).specs = m.specs := by
  unfold Manifest.addSource
  by_cases hu : u ∈ m.sources <;> simp [hu]

theorem lookupKey_addSpec_self (m : Manifest) (name : String) (p : Pod) :
    lookupKey (m.addSpec name p).specs name = some p :=
  lookupKey_setAssoc_self m.specs name p

theorem isSome_addSpec_mono (m : Manifest) (name : String) (p : Pod) (k : String)
    (h : (lookupKey m.specs k).isSome = true) :
    (lookupKey (m.addSpec name p).specs k).isSome = true :=
  isSome_lookupKey_setAssoc m.specs name k p h

theorem addSpec_declarations (m : Manifest) (name : String) (p : Pod) :
    (m.addSpec name p).declarations = m.declarations := rfl

theorem addSpec_sources (m : Manifest) (name : String) (p : Pod) :
    (m.addSpec name p).sources = m.sources := rfl

theorem lookupKey_removeSpec_self (m : Manifest) (name : String) :
    lookupKey (m.removeSpec name).specs name = none :=
  lookupKey_removeKeyAll_self m.specs name

theorem replacePodSpecVariables_name (pod : Pod) (opts : Options) :
    (replacePodSpecVariables pod opts).name = pod.name := rfl

/-- C7: the variable resolver returns a value without a dollar sign
unchanged; a value with a dollar sign is looked up in the variable
mapping under the value with its dollar stripped, yielding none with
no error when the variable is absent; resolution is applied exactly to
the five mutable pin fields of a library payload, never to the name or
the flags. -/
theorem c7_variable_resolver_pure :
    (∀ s opts, hasDollar s = false → getVariableSpec s opts = some s) ∧
    (∀ s opts, hasDollar s = true →
        getVariableSpec s opts = lookupKey opts.cli_variables (removeFirstDollar s)) ∧
    (∀ pod opts,
        (replacePodSpecVariables pod opts).name = pod.name ∧
        (replacePodSpecVariables pod opts).nospm = pod.nospm ∧
        (replacePodSpecVariables pod opts).spec = resolveField opts pod.spec ∧
        (replacePodSpecVariables pod opts).tag = resolveField opts pod.tag ∧
        (replacePodSpecVariables pod opts).git = resolveField opts pod.git ∧
        (replacePodSpecVariables pod opts).commit = resolveField opts pod.commit ∧
        (replacePodSpecVariables pod opts).branch = resolveField opts pod.branch) := by
  refine ⟨?_, ?_, ?_⟩
  · intro s opts h; simp [getVariableSpec, h]
  · intro s opts h; simp [getVariableSpec, h]
  · intro pod opts; exact ⟨rfl, rfl, rfl, rfl, rfl, rfl, rfl⟩

/-- Witness for C7 at concrete inputs: a plain version pin passes
through, a dollar placeholder is resolved through the mapping, and an
absent variable yields none. -/
theorem c7_variable_resolver_pure_witness :
    hasDollar "1.0" = false ∧ getVariableSpec "1.0" ⟨[("FOO", "7")]⟩ = some "1.0" ∧
    hasDollar "$FOO" = true ∧
    getVariableSpec "$FOO" ⟨[("FOO", "7")]⟩ =
      lookupKey [("FOO", "7")] (removeFirstDollar "$FOO") ∧
    getVariableSpec "$BAR" ⟨[("FOO", "7")]⟩ = none :=
  ⟨by decide, c7_variable_resolver_pure.1 "1.0" ⟨[("FOO", "7")]⟩ (by decide),
   by decide, c7_variable_resolver_pure.2.1 "$FOO" ⟨[("FOO", "7")]⟩ (by decide),
   by decide⟩

/-- C9: a declaration entry is acted on by install and by uninstall
only when its value is exactly the string true: any other value leaves
the whole loop state (ledger, manifest, logs) unchanged, while the
exact string true on an unregistered key does create a count-1 ledger
entry. -/
theorem c9_declaration_strict_string_true :
    (∀ st k v, v ≠ JSVal.str "true" → processDeclAdd st k v = st) ∧
    (∀ pluginId st k v, v ≠ JSVal.str "true" →
        processDeclRemove pluginId st k v = st) ∧
    (∀ st k, st.pods.getDeclaration (proofDeclaration k) = none →
        (processDeclAdd st k (JSVal.str "true")).pods.getDeclaration
          (proofDeclaration k) = some 1) := by
  refine ⟨?_, ?_, ?_⟩
  · intro st k v h; simp [processDeclAdd, h]
  · intro pluginId st k v h; simp [processDeclRemove, h]
  · intro st k h
    unfold PodsJson.getDeclaration at h
    simp [processDeclAdd, PodsJson.getDeclaration, h, PodsJson.setJsonDeclaration,
      lookupKey_setAssoc_self]

/-- Witness for C9: the values TRUE (string), true (boolean) and 1 are
all ignored by install and uninstall, and the exact string true acts. -/
theorem c9_declaration_strict_string_true_witness :
    processDeclAdd st0Install "k" (JSVal.str "TRUE") = st0Install ∧
    processDeclAdd st0Install "k" (JSVal.bool true) = st0Install ∧
    processDeclAdd st0Install "k" (JSVal.num 1) = st0Install ∧
    processDeclRemove "p" st0Remove "k" (JSVal.bool true) = st0Remove ∧
    (processDeclAdd st0Install "k" (JSVal.str "true")).pods.getDeclaration
      (proofDeclaration "k") = some 1 :=
  ⟨c9_declaration_strict_string_true.1 st0Install "k" (JSVal.str "TRUE") (by decide),
   c9_declaration_strict_string_true.1 st0Install "k" (JSVal.bool true) (by decide),
   c9_declaration_strict_string_true.1 st0Install "k" (JSVal.num 1) (by decide),
   c9_declaration_strict_string_true.2.1 "p" st0Remove "k" (JSVal.bool true) (by decide),
   c9_declaration_strict_string_true.2.2 st0Install "k" (by decide)⟩

/-- C3 counterexample: a second plugin installs the very same library
payload that is already registered (same key, same spec, resolution
changes nothing), yet the conflict warning is emitted; the source
warns whenever the key is already in the ledger, not only when the
payloads differ. -/
theorem c3_matching_payload_still_warns :
    replacePodSpecVariables podAF optsNone = podAF ∧
    stC3.pods.getLibrary "AFNetworking" = some (podAF, 1) ∧
    (processLibAdd "pluginB" false optsNone stC3 "AFNetworking" podAF).warnings =
      [{ pluginId := "pluginB", podName := "AFNetworking",
         installedSpec := some "~> 4.0" }] := by
  exact ⟨by decide, by decide, by decide⟩

/-- C3 amended: on install of a library whose key is already in the
ledger the warning naming the installing plugin, the resolved pod name
and the registered spec is always emitted, whether or not the payloads
match; the registered payload is kept with its count incremented and
the manifest is untouched; when the key is absent no warning is
emitted. -/
theorem c3_amended_warn_whenever_present :
    (∀ pluginId isSPM opts (st : InstallState) k pod p c,
      (!isSPM || (isSPM && !(isTrueFlag pod.nospm))) = true →
      st.pods.getLibrary k = some (p, c) →
      (processLibAdd pluginId isSPM opts st k pod).warnings =
        st.warnings ++
          [{ pluginId := pluginId,
             podName := (replacePodSpecVariables pod opts).name,
             installedSpec := p.spec }] ∧
      (processLibAdd pluginId isSPM opts st k pod).pods.getLibrary k =
        some (p, c + 1) ∧
      (processLibAdd pluginId isSPM opts st k pod).podfile = st.podfile) ∧
    (∀ pluginId isSPM opts (st : InstallState) k pod,
      st.pods.getLibrary k = none →
      (processLibAdd pluginId isSPM opts st k pod).warnings = st.warnings) := by
  constructor
  · intro pluginId isSPM opts st k pod p c hg hp
    unfold PodsJson.getLibrary at hp
    refine ⟨?_, ?_, ?_⟩ <;>
      simp [processLibAdd, hg, processLibAddCore, PodsJson.getLibrary, hp,
        PodsJson.incrementLibrary, PodsJson.setJsonLibrary, lookupKey_setAssoc_self]
  · intro pluginId isSPM opts st k pod hp
    unfold PodsJson.getLibrary at hp
    by_cases hg : (!isSPM || (isSPM && !(isTrueFlag pod.nospm))) = true
    · simp [processLibAdd, hg, processLibAddCore, PodsJson.getLibrary, hp]
    · simp [processLibAdd, hg]

/-- Witness for the amended C3 at the concrete conflicting-install
state: the warning is emitted with the installed spec and the count
goes to two. -/
theorem c3_amended_warn_whenever_present_witness :
    (processLibAdd "pluginB" false optsNone stC3 "AFNetworking" podAF).warnings =
      [] ++
        [{ pluginId := "pluginB",
           podName := (replacePodSpecVariables podAF optsNone).name,
           installedSpec := podAF.spec }] ∧
    (processLibAdd "pluginB" false optsNone stC3 "AFNetworking" podAF).pods.getLibrary
      "AFNetworking" = some (podAF, 1 + 1) ∧
    (processLibAdd "pluginB" false optsNone stC3 "AFNetworking" podAF).podfile =
      stC3.podfile ∧
    (processLibAdd "pluginB" false optsNone st0Install "AFNetworking" podAF).warnings =
      st0Install.warnings :=
  ⟨(c3_amended_warn_whenever_present.1 "pluginB" false optsNone stC3 "AFNetworking"
      podAF podAF 1 (by decide) (by decide)).1,
   (c3_amended_warn_whenever_present.1 "pluginB" false optsNone stC3 "AFNetworking"
      podAF podAF 1 (by decide) (by decide)).2.1,
   (c3_amended_warn_whenever_present.1 "pluginB" false optsNone stC3 "AFNetworking"
      podAF podAF 1 (by decide) (by decide)).2.2,
   c3_amended_warn_whenever_present.2 "pluginB" false optsNone st0Install
     "AFNetworking" podAF (by decide)⟩

/-- C10: install guards each podspec section and skips an absent one,
while uninstall enumerates all three sections unconditionally: for a
podspec object with no declarations section (or with declarations but
no sources section) the uninstall call raises the type error while the
install call of the same object succeeds without touching anything. -/
theorem c10_uninstall_unguarded_sections :
    ∀ pluginId opts isSPM s,
      runRemovePodSpecs pluginId
        [{ declarations := none, sources := none, libraries := none }] opts isSPM s =
        Except.error JsError.typeError ∧
      runRemovePodSpecs pluginId
        [{ declarations := some [], sources := none, libraries := none }] opts isSPM s =
        Except.error JsError.typeError ∧
      (runAddPodSpecs pluginId
        [{ declarations := none, sources := none, libraries := none }] opts isSPM s).1 = s ∧
      (runAddPodSpecs pluginId
        [{ declarations := none, sources := none, libraries := none }] opts isSPM
        s).2.installerInvoked = false := by
  intro pluginId opts isSPM s
  refine ⟨rfl, rfl, ?_, ?_⟩ <;>
    simp [runAddPodSpecs, processObjAdd, PodfileMem.isDirty]

/-- C2: uninstalling a library whose key is in the ledger decrements
its count keeping the registered payload, and removes the spec from
the manifest exactly when the post-decrement count is zero; a
decrement that leaves the count positive leaves the manifest writer
untouched, and no recovery message is logged. -/
theorem c2_uninstall_library_postdecrement :
    ∀ pluginId isSPM opts (st : RemoveState) k pod p c,
      (!isSPM || (isSPM && !(isTrueFlag pod.nospm))) = true →
      st.pods.getLibrary k = some (p, c) →
      (processLibRemove pluginId isSPM opts st k pod).pods.getLibrary k =
        some (p, c - 1) ∧
      (c - 1 = 0 →
        (processLibRemove pluginId isSPM opts st k pod).podfile.current =
          st.podfile.current.removeSpec pod.name ∧
        lookupKey (processLibRemove pluginId isSPM opts st k pod).podfile.current.specs
          pod.name = none) ∧
      (c - 1 ≠ 0 →
        (processLibRemove pluginId isSPM opts st k pod).podfile = st.podfile) ∧
      (processLibRemove pluginId isSPM opts st k pod).logs = st.logs := by
  intro pluginId isSPM opts st k pod p c hg hp
  unfold PodsJson.getLibrary at hp
  by_cases hz : c - 1 = 0 <;>
    refine ⟨?_, ?_, ?_, ?_⟩ <;>
      simp [processLibRemove, hg, processLibRemoveCore, PodsJson.getLibrary, hp, hz,
        PodsJson.decrementLibrary, PodsJson.setJsonLibrary, lookupKey_setAssoc_self,
        PodfileMem.removeSpec, lookupKey_removeSpec_self, replacePodSpecVariables_name]

/-- Witness for C2: from count two the manifest is untouched, from
count one the spec is removed from the manifest. -/
theorem c2_uninstall_library_postdecrement_witness :
    ((processLibRemove "p" false optsNone
        ⟨⟨[], [], [("AFNetworking", (podAF, 2))]⟩, emptyPodfile, []⟩
        "AFNetworking" podAF).pods.getLibrary "AFNetworking" =
      some (podAF, 2 - 1) ∧
     (2 - 1 ≠ 0 →
       (processLibRemove "p" false optsNone
          ⟨⟨[], [], [("AFNetworking", (podAF, 2))]⟩, emptyPodfile, []⟩
          "AFNetworking" podAF).podfile =
         (⟨⟨[], [], [("AFNetworking", (podAF, 2))]⟩, emptyPodfile, []⟩ :
           RemoveState).podfile)) ∧
    (1 - 1 = 0 →
      (processLibRemove "p" false optsNone
         ⟨⟨[], [], [("AFNetworking", (podAF, 1))]⟩, emptyPodfile, []⟩
         "AFNetworking" podAF).podfile.current =
        (⟨⟨[], [], [("AFNetworking", (podAF, 1))]⟩, emptyPodfile, []⟩ :
          RemoveState).podfile.current.removeSpec podAF.name ∧
      lookupKey (processLibRemove "p" false optsNone
         ⟨⟨[], [], [("AFNetworking", (podAF, 1))]⟩, emptyPodfile, []⟩
         "AFNetworking" podAF).podfile.current.specs podAF.name = none) :=
  ⟨⟨(c2_uninstall_library_postdecrement "p" false optsNone
      ⟨⟨[], [], [("AFNetworking", (podAF, 2))]⟩, emptyPodfile, []⟩
      "AFNetworking" podAF podAF 2 (by decide) (by decide)).1,
    (c2_uninstall_library_postdecrement "p" false optsNone
      ⟨⟨[], [], [("AFNetworking", (podAF, 2))]⟩, emptyPodfile, []⟩
      "AFNetworking" podAF podAF 2 (by decide) (by decide)).2.2.1⟩,
   (c2_uninstall_library_postdecrement "p" false optsNone
      ⟨⟨[], [], [("AFNetworking", (podAF, 1))]⟩, emptyPodfile, []⟩
      "AFNetworking" podAF podAF 1 (by decide) (by decide)).2.1⟩

/-- C6: every kind of dependency unit whose key is absent from the
ledger makes uninstall log a recovery message naming the plugin and
the unit, leave the ledger unchanged, and still attempt the removal
from the manifest. -/
theorem c6_uninstall_missing_recovery :
    (∀ pluginId (st : RemoveState) k,
       st.pods.getDeclaration (proofDeclaration k) = none →
       (processDeclRemove pluginId st k (JSVal.str "true")).logs =
         st.logs ++ [LogEntry.recoveryDeclaration pluginId (proofDeclaration k)] ∧
       (processDeclRemove pluginId st k (JSVal.str "true")).podfile.current =
         st.podfile.current.removeDeclaration (proofDeclaration k) ∧
       (processDeclRemove pluginId st k (JSVal.str "true")).pods = st.pods) ∧
    (∀ pluginId (st : RemoveState) k url,
       st.pods.getSource k = none →
       (processSourceRemove pluginId st k url).logs =
         st.logs ++ [LogEntry.recoverySource pluginId url] ∧
       (processSourceRemove pluginId st k url).podfile.current =
         st.podfile.current.removeSource url ∧
       (processSourceRemove pluginId st k url).pods = st.pods) ∧
    (∀ pluginId isSPM opts (st : RemoveState) k pod,
       (!isSPM || (isSPM && !(isTrueFlag pod.nospm))) = true →
       st.pods.getLibrary k = none →
       (processLibRemove pluginId isSPM opts st k pod).logs =
         st.logs ++ [LogEntry.recoveryLibrary pluginId pod.name] ∧
       (processLibRemove pluginId isSPM opts st k pod).podfile.current =
         st.podfile.current.removeSpec pod.name ∧
       (processLibRemove pluginId isSPM opts st k pod).pods = st.pods) := by
  refine ⟨?_, ?_, ?_⟩
  · intro pluginId st k h
    unfold PodsJson.getDeclaration at h
    refine ⟨?_, ?_, ?_⟩ <;>
      simp [processDeclRemove, PodsJson.getDeclaration, h, PodfileMem.removeDeclaration]
  · intro pluginId st k url h
    unfold PodsJson.getSource at h
    refine ⟨?_, ?_, ?_⟩ <;>
      simp [processSourceRemove, PodsJson.getSource, h, PodfileMem.removeSource]
  · intro pluginId isSPM opts st k pod hg h
    unfold PodsJson.getLibrary at h
    refine ⟨?_, ?_, ?_⟩ <;>
      simp [processLibRemove, hg, processLibRemoveCore, PodsJson.getLibrary, h,
        PodfileMem.removeSpec, replacePodSpecVariables_name]

/-- Witness for C6 at the empty ledger: all three kinds log their
recovery message and attempt removal from the manifest. -/
theorem c6_uninstall_missing_recovery_witness :
    (processDeclRemove "p" st0Remove "d" (JSVal.str "true")).logs =
      st0Remove.logs ++ [LogEntry.recoveryDeclaration "p" (proofDeclaration "d")] ∧
    (processSourceRemove "p" st0Remove "s" "https://u").logs =
      st0Remove.logs ++ [LogEntry.recoverySource "p" "https://u"] ∧
    (processLibRemove "p" false optsNone st0Remove "AFNetworking" podAF).logs =
      st0Remove.logs ++ [LogEntry.recoveryLibrary "p" podAF.name] ∧
    (processLibRemove "p" false optsNone st0Remove "AFNetworking" podAF).podfile.current =
      st0Remove.podfile.current.removeSpec podAF.name :=
  ⟨(c6_uninstall_missing_recovery.1 "p" st0Remove "d" (by decide)).1,
   (c6_uninstall_missing_recovery.2.1 "p" st0Remove "s" "https://u" (by decide)).1,
   (c6_uninstall_missing_recovery.2.2 "p" false optsNone st0Remove "AFNetworking"
      podAF (by decide) (by decide)).1,
   (c6_uninstall_missing_recovery.2.2 "p" false optsNone st0Remove "AFNetworking"
      podAF (by decide) (by decide)).2.1⟩

/-- C8: under Swift-package packaging a library whose nospm flag is a
true value (boolean true, the string true in any letter case, or the
number 1) is skipped entirely by install and by uninstall, leaving
ledger, manifest, warnings and logs untouched; outside that packaging
mode, and for a non-true flag inside it, the library goes through the
unguarded processing body regardless of the flag. -/
theorem c8_nospm_swift_package_skip :
    (∀ pluginId opts (st : InstallState) k pod, isTrueFlag pod.nospm = true →
        processLibAdd pluginId true opts st k pod = st) ∧
    (∀ pluginId opts (st : RemoveState) k pod, isTrueFlag pod.nospm = true →
        processLibRemove pluginId true opts st k pod = st) ∧
    (∀ pluginId opts (st : InstallState) k pod,
        processLibAdd pluginId false opts st k pod =
          processLibAddCore pluginId opts st k pod) ∧
    (∀ pluginId opts (st : RemoveState) k pod,
        processLibRemove pluginId false opts st k pod =
          processLibRemoveCore pluginId opts st k pod) ∧
    (∀ pluginId opts (st : InstallState) k pod, isTrueFlag pod.nospm = false →
        processLibAdd pluginId true opts st k pod =
          processLibAddCore pluginId opts st k pod) ∧
    (∀ s, isTrueFlag (some (JSVal.str s)) = (jsToLower s == "true")) ∧
    isTrueFlag (some (JSVal.num 1)) = true ∧
    isTrueFlag (some (JSVal.bool true)) = true := by
  refine ⟨?_, ?_, ?_, ?_, ?_, ?_, by decide, by decide⟩
  · intro pluginId opts st k pod h; simp [processLibAdd, h]
  · intro pluginId opts st k pod h; simp [processLibRemove, h]
  · intro pluginId opts st k pod; simp [processLibAdd]
  · intro pluginId opts st k pod; simp [processLibRemove]
  · intro pluginId opts st k pod h; simp [processLibAdd, h]
  · intro s; rfl

/-- Witness for C8: a library flagged nospm TRUE is skipped whole under
Swift-package packaging by install and uninstall, and processed when
the plugin is not under that mode. -/
theorem c8_nospm_swift_package_skip_witness :
    processLibAdd "p" true optsNone st0Install "K"
      { name := "K", nospm := some (JSVal.str "TRUE") } = st0Install ∧
    processLibRemove "p" true optsNone st0Remove "K"
      { name := "K", nospm := some (JSVal.num 1) } = st0Remove ∧
    processLibAdd "p" false optsNone st0Install "K"
      { name := "K", nospm := some (JSVal.str "TRUE") } =
      processLibAddCore "p" optsNone st0Install "K"
        { name := "K", nospm := some (JSVal.str "TRUE") } ∧
    processLibAdd "p" true optsNone st0Install "K"
      { name := "K", nospm := some (JSVal.str "no") } =
      processLibAddCore "p" optsNone st0Install "K"
        { name := "K", nospm := some (JSVal.str "no") } :=
  ⟨c8_nospm_swift_package_skip.1 "p" optsNone st0Install "K"
      { name := "K", nospm := some (JSVal.str "TRUE") } (by decide),
   c8_nospm_swift_package_skip.2.1 "p" optsNone st0Remove "K"
      { name := "K", nospm := some (JSVal.num 1) } (by decide),
   c8_nospm_swift_package_skip.2.2.1 "p" optsNone st0Install "K"
      { name := "K", nospm := some (JSVal.str "TRUE") },
   c8_nospm_swift_package_skip.2.2.2.2.1 "p" optsNone st0Install "K"
      { name := "K", nospm := some (JSVal.str "no") } (by decide)⟩

/-- C1: for each kind of dependency unit processed by install, a key
already in the ledger gets exactly a count increment with the manifest
writer untouched, while an absent key gets a fresh count-1 ledger
entry and its entry appended to the manifest. -/
theorem c1_install_unit_refcount :
    (∀ (st : InstallState) k c,
       st.pods.getDeclaration (proofDeclaration k) = some c →
       (processDeclAdd st k (JSVal.str "true")).podfile = st.podfile ∧
       (processDeclAdd st k (JSVal.str "true")).pods.getDeclaration
         (proofDeclaration k) = some (c + 1) ∧
       (processDeclAdd st k (JSVal.str "true")).pods.sources = st.pods.sources ∧
       (processDeclAdd st k (JSVal.str "true")).pods.libraries = st.pods.libraries) ∧
    (∀ (st : InstallState) k,
       st.pods.getDeclaration (proofDeclaration k) = none →
       (processDeclAdd st k (JSVal.str "true")).pods.getDeclaration
         (proofDeclaration k) = some 1 ∧
       proofDeclaration k ∈
         (processDeclAdd st k (JSVal.str "true")).podfile.current.declarations ∧
       (proofDeclaration k ∉ st.podfile.current.declarations →
         (processDeclAdd st k (JSVal.str "true")).podfile.current.declarations =
           st.podfile.current.declarations ++ [proofDeclaration k])) ∧
    (∀ (st : InstallState) k url e,
       st.pods.getSource k = some e →
       (processSourceAdd st k url).podfile = st.podfile ∧
       (processSourceAdd st k url).pods.getSource k = some (e.1, e.2 + 1)) ∧
    (∀ (st : InstallState) k url,
       st.pods.getSource k = none →
       (processSourceAdd st k url).pods.getSource k = some (url, 1) ∧
       url ∈ (processSourceAdd st k url).podfile.current.sources ∧
       (url ∉ st.podfile.current.sources →
         (processSourceAdd st k url).podfile.current.sources =
           st.podfile.current.sources ++ [url])) ∧
    (∀ pluginId isSPM opts (st : InstallState) k pod p c,
       (!isSPM || (isSPM && !(isTrueFlag pod.nospm))) = true →
       st.pods.getLibrary k = some (p, c) →
       (processLibAdd pluginId isSPM opts st k pod).podfile = st.podfile ∧
       (processLibAdd pluginId isSPM opts st k pod).pods.getLibrary k =
         some (p, c + 1)) ∧
    (∀ pluginId isSPM opts (st : InstallState) k pod,
       (!isSPM || (isSPM && !(isTrueFlag pod.nospm))) = true →
       st.pods.getLibrary k = none →
       (processLibAdd pluginId isSPM opts st k pod).pods.getLibrary k =
         some (replacePodSpecVariables pod opts, 1) ∧
       lookupKey (processLibAdd pluginId isSPM opts st k pod).podfile.current.specs
         pod.name = some (replacePodSpecVariables pod opts)) := by
  refine ⟨?_, ?_, ?_, ?_, ?_, ?_⟩
  · intro st k c h
    unfold PodsJson.getDeclaration at h
    refine ⟨?_, ?_, ?_, ?_⟩ <;>
      simp [processDeclAdd, PodsJson.getDeclaration, h, PodsJson.incrementDeclaration,
        PodsJson.setJsonDeclaration, lookupKey_setAssoc_self]
  · intro st k h
    unfold PodsJson.getDeclaration at h
    refine ⟨?_, ?_, ?_⟩
    · simp [processDeclAdd, PodsJson.getDeclaration, h, PodsJson.setJsonDeclaration,
        lookupKey_setAssoc_self]
    · simp [processDeclAdd, PodsJson.getDeclaration, h, PodfileMem.addDeclaration,
        mem_addDeclaration_self]
    · intro hmem
      simp only [processDeclAdd, PodsJson.getDeclaration, h, if_pos rfl]
      exact addDeclaration_of_not_mem st.podfile.current (proofDeclaration k) hmem
  · intro st k url e h
    unfold PodsJson.getSource at h
    refine ⟨?_, ?_⟩ <;>
      simp [processSourceAdd, PodsJson.getSource, h, PodsJson.incrementSource,
        PodsJson.setJsonSource, lookupKey_setAssoc_self]
  · intro st k url h
    unfold PodsJson.getSource at h
    refine ⟨?_, ?_, ?_⟩
    · simp [processSourceAdd, PodsJson.getSource, h, PodsJson.setJsonSource,
        lookupKey_setAssoc_self]
    · simp [processSourceAdd, PodsJson.getSource, h, PodfileMem.addSource,
        mem_addSource_self]
    · intro hmem
      simp only [processSourceAdd, PodsJson.getSource, h]
      exact addSource_of_not_mem st.podfile.current url hmem
  · intro pluginId isSPM opts st k pod p c hg hp
    unfold PodsJson.getLibrary at hp
    refine ⟨?_, ?_⟩ <;>
      simp [processLibAdd, hg, processLibAddCore, PodsJson.getLibrary, hp,
        PodsJson.incrementLibrary, PodsJson.setJsonLibrary, lookupKey_setAssoc_self]
  · intro pluginId isSPM opts st k pod hg hp
    unfold PodsJson.getLibrary at hp
    refine ⟨?_, ?_⟩ <;>
      simp [processLibAdd, hg, processLibAddCore, PodsJson.getLibrary, hp,
        PodsJson.setJsonLibrary, lookupKey_setAssoc_self, PodfileMem.addSpec,
        lookupKey_addSpec_self, replacePodSpecVariables_name]

/-- Witness for C1: each of the six cases at a small concrete state. -/
theorem c1_install_unit_refcount_witness :
    ((processDeclAdd ⟨⟨[("d", 2)], [], []⟩, emptyPodfile, []⟩ "d"
        (JSVal.str "true")).podfile = emptyPodfile ∧
     (processDeclAdd ⟨⟨[("d", 2)], [], []⟩, emptyPodfile, []⟩ "d"
        (JSVal.str "true")).pods.getDeclaration (proofDeclaration "d") = some (2 + 1)) ∧
    (processDeclAdd st0Install "d" (JSVal.str "true")).pods.getDeclaration
      (proofDeclaration "d") = some 1 ∧
    (processSourceAdd ⟨⟨[], [("s", ("https://u", 3))], []⟩, emptyPodfile, []⟩ "s"
       "https://u").pods.getSource "s" = some (("https://u", 3).1, ("https://u", 3).2 + 1) ∧
    (processSourceAdd st0Install "s" "https://u").pods.getSource "s" =
      some ("https://u", 1) ∧
    (processLibAdd "p" false optsNone stC3 "AFNetworking" podAF).pods.getLibrary
      "AFNetworking" = some (podAF, 1 + 1) ∧
    lookupKey (processLibAdd "p" false optsNone st0Install "AFNetworking"
      podAF).podfile.current.specs podAF.name =
      some (replacePodSpecVariables podAF optsNone) :=
  ⟨⟨(c1_install_unit_refcount.1 ⟨⟨[("d", 2)], [], []⟩, emptyPodfile, []⟩ "d" 2
       (by decide)).1,
    (c1_install_unit_refcount.1 ⟨⟨[("d", 2)], [], []⟩, emptyPodfile, []⟩ "d" 2
       (by decide)).2.1⟩,
   (c1_install_unit_refcount.2.1 st0Install "d" (by decide)).1,
   (c1_install_unit_refcount.2.2.1 ⟨⟨[], [("s", ("https://u", 3))], []⟩, emptyPodfile, []⟩
      "s" "https://u" ("https://u", 3) (by decide)).2,
   (c1_install_unit_refcount.2.2.2.1 st0Install "s" "https://u" (by decide)).1,
   (c1_install_unit_refcount.2.2.2.2.1 "p" false optsNone stC3 "AFNetworking" podAF
      podAF 1 (by decide) (by decide)).2,
   (c1_install_unit_refcount.2.2.2.2.2 "p" false optsNone st0Install "AFNetworking"
      podAF (by decide) (by decide)).2⟩

theorem presenceLe_refl (a : PodsJson) : presenceLe a a :=
  ⟨fun _ h => h, fun _ h => h, fun _ h => h⟩

theorem presenceLe_trans {a b c : PodsJson}
    (hab : presenceLe a b) (hbc : presenceLe b c) : presenceLe a c :=
  ⟨fun k h => hbc.1 k (hab.1 k h), fun k h => hbc.2.1 k (hab.2.1 k h),
   fun k h => hbc.2.2 k (hab.2.2 k h)⟩

theorem setJsonDeclaration_presenceLe (pj : PodsJson) (k : String) (c : Nat) :
    presenceLe pj (pj.setJsonDeclaration k c) :=
  ⟨fun k2 h => isSome_lookupKey_setAssoc pj.declarations k k2 c h,
   fun _ h => h, fun _ h => h⟩

theorem setJsonSource_presenceLe (pj : PodsJson) (k : String) (e : String × Nat) :
    presenceLe pj (pj.setJsonSource k e) :=
  ⟨fun _ h => h,
   fun k2 h => isSome_lookupKey_setAssoc pj.sources k k2 e h,
   fun _ h => h⟩

theorem setJsonLibrary_presenceLe (pj : PodsJson) (k : String) (e : Pod × Nat) :
    presenceLe pj (pj.setJsonLibrary k e) :=
  ⟨fun _ h => h, fun _ h => h,
   fun k2 h => isSome_lookupKey_setAssoc pj.libraries k k2 e h⟩

theorem processDeclAdd_presenceLe (st : InstallState) (k : String) (v : JSVal) :
    presenceLe st.pods (processDeclAdd st k v).pods := by
  unfold processDeclAdd
  by_cases hv : v = JSVal.str "true"
  · simp only [hv, if_pos rfl]
    cases h : st.pods.getDeclaration (proofDeclaration k) with
    | none => exact setJsonDeclaration_presenceLe st.pods (proofDeclaration k) 1
    | some c =>
        unfold PodsJson.getDeclaration at h
        unfold PodsJson.incrementDeclaration
        rw [h]
        exact setJsonDeclaration_presenceLe st.pods (proofDeclaration k) (c + 1)
  · simp only [if_neg hv]; exact presenceLe_refl st.pods

theorem processSourceAdd_presenceLe (st : InstallState) (k url : String) :
    presenceLe st.pods (processSourceAdd st k url).pods := by
  unfold processSourceAdd
  cases h : st.pods.getSource k with
  | none => exact setJsonSource_presenceLe st.pods k (url, 1)
  | some e =>
      unfold PodsJson.getSource at h
      unfold PodsJson.incrementSource
      rw [h]
      exact setJsonSource_presenceLe st.pods k (e.1, e.2 + 1)

theorem processLibAdd_presenceLe (pluginId : String) (isSPM : Bool) (opts : Options)
    (st : InstallState) (k : String) (pod : Pod) :
    presenceLe st.pods (processLibAdd pluginId isSPM opts st k pod).pods := by
  unfold processLibAdd
  by_cases hg : (!isSPM || (isSPM && !(isTrueFlag pod.nospm))) = true
  · simp only [hg, if_pos rfl]
    unfold processLibAddCore
    cases h : st.pods.getLibrary k with
    | none => exact setJsonLibrary_presenceLe st.pods k (replacePodSpecVariables pod opts, 1)
    | some e =>
        unfold PodsJson.getLibrary at h
        unfold PodsJson.incrementLibrary
        rw [h]
        exact setJsonLibrary_presenceLe st.pods k (e.1, e.2 + 1)
  · simp only [hg, Bool.false_eq_true, if_false]
    exact presenceLe_refl st.pods

theorem foldDeclAdd_presenceLe (ds : List (String × JSVal)) :
    ∀ st : InstallState,
      presenceLe st.pods
        ((ds.foldl (fun s kv => processDeclAdd s kv.1 kv.2) st)).pods := by
  induction ds with
  | nil => intro st; exact presenceLe_refl st.pods
  | cons hd tl ih =>
      intro st
      rw [List.foldl_cons]
      exact presenceLe_trans (processDeclAdd_presenceLe st hd.1 hd.2)
        (ih (processDeclAdd st hd.1 hd.2))

theorem foldSourceAdd_presenceLe (ss : List (String × String)) :
    ∀ st : InstallState,
      presenceLe st.pods
        ((ss.foldl (fun s kv => processSourceAdd s kv.1 kv.2) st)).pods := by
  induction ss with
  | nil => intro st; exact presenceLe_refl st.pods
  | cons hd tl ih =>
      intro st
      rw [List.foldl_cons]
      exact presenceLe_trans (processSourceAdd_presenceLe st hd.1 hd.2)
        (ih (processSourceAdd st hd.1 hd.2))

theorem foldLibAdd_presenceLe (pluginId : String) (isSPM : Bool) (opts : Options)
    (ls : List (String × Pod)) :
    ∀ st : InstallState,
      presenceLe st.pods
        ((ls.foldl (fun s kv => processLibAdd pluginId isSPM opts s kv.1 kv.2) st)).pods := by
  induction ls with
  | nil => intro st; exact presenceLe_refl st.pods
  | cons hd tl ih =>
      intro st
      rw [List.foldl_cons]
      exact presenceLe_trans (processLibAdd_presenceLe pluginId isSPM opts st hd.1 hd.2)
        (ih (processLibAdd pluginId isSPM opts st hd.1 hd.2))

theorem processObjAdd_presenceLe (pluginId : String) (isSPM : Bool) (opts : Options)
    (st : InstallState) (obj : PodSpecObj) :
    presenceLe st.pods (processObjAdd pluginId isSPM opts st obj).pods := by
  unfold processObjAdd
  exact presenceLe_trans (foldDeclAdd_presenceLe (obj.declarations.getD []) st)
    (presenceLe_trans (foldSourceAdd_presenceLe (obj.sources.getD []) _)
      (foldLibAdd_presenceLe pluginId isSPM opts (obj.libraries.getD []) _))

theorem foldObjsAdd_presenceLe (pluginId : String) (isSPM : Bool) (opts : Options)
    (objs : List PodSpecObj) :
    ∀ st : InstallState,
      presenceLe st.pods ((objs.foldl (processObjAdd pluginId isSPM opts) st)).pods := by
  induction objs with
  | nil => intro st; exact presenceLe_refl st.pods
  | cons hd tl ih =>
      intro st
      rw [List.foldl_cons]
      exact presenceLe_trans (processObjAdd_presenceLe pluginId isSPM opts st hd)
        (ih (processObjAdd pluginId isSPM opts st hd))

theorem processDeclAdd_loaded (st : InstallState) (k : String) (v : JSVal) :
    (processDeclAdd st k v).podfile.loaded = st.podfile.loaded := by
  unfold processDeclAdd
  by_cases hv : v = JSVal.str "true"
  · simp only [hv, if_pos rfl]
    cases h : st.pods.getDeclaration (proofDeclaration k) <;>
      simp [PodfileMem.addDeclaration]
  · simp [hv]

theorem processSourceAdd_loaded (st : InstallState) (k url : String) :
    (processSourceAdd st k url).podfile.loaded = st.podfile.loaded := by
  unfold processSourceAdd
  cases h : st.pods.getSource k <;> simp [PodfileMem.addSource]

theorem processLibAdd_loaded (pluginId : String) (isSPM : Bool) (opts : Options)
    (st : InstallState) (k : String) (pod : Pod) :
    (processLibAdd pluginId isSPM opts st k pod).podfile.loaded = st.podfile.loaded := by
  unfold processLibAdd processLibAddCore
  by_cases hg : (!isSPM || (isSPM && !(isTrueFlag pod.nospm))) = true
  · simp only [hg, if_pos rfl]
    cases h : st.pods.getLibrary k <;> simp [PodfileMem.addSpec]
  · simp [hg]

theorem foldDeclAdd_loaded (ds : List (String × JSVal)) :
    ∀ st : InstallState,
      ((ds.foldl (fun s kv => processDeclAdd s kv.1 kv.2) st)).podfile.loaded =
        st.podfile.loaded := by
  induction ds with
  | nil => intro st; rfl
  | cons hd tl ih =>
      intro st
      rw [List.foldl_cons, ih, processDeclAdd_loaded]

theorem foldSourceAdd_loaded (ss : List (String × String)) :
    ∀ st : InstallState,
      ((ss.foldl (fun s kv => processSourceAdd s kv.1 kv.2) st)).podfile.loaded =
        st.podfile.loaded := by
  induction ss with
  | nil => intro st; rfl
  | cons hd tl ih =>
      intro st
      rw [List.foldl_cons, ih, processSourceAdd_loaded]

theorem foldLibAdd_loaded (pluginId : String) (isSPM : Bool) (opts : Options)
    (ls : List (String × Pod)) :
    ∀ st : InstallState,
      ((ls.foldl (fun s kv => processLibAdd pluginId isSPM opts s kv.1 kv.2)
        st)).podfile.loaded = st.podfile.loaded := by
  induction ls with
  | nil => intro st; rfl
  | cons hd tl ih =>
      intro st
      rw [List.foldl_cons, ih, processLibAdd_loaded]

theorem processObjAdd_loaded (pluginId : String) (isSPM : Bool) (opts : Options)
    (st : InstallState) (obj : PodSpecObj) :
    (processObjAdd pluginId isSPM opts st obj).podfile.loaded = st.podfile.loaded := by
  unfold processObjAdd
  rw [foldLibAdd_loaded, foldSourceAdd_loaded, foldDeclAdd_loaded]

theorem foldObjsAdd_loaded (pluginId : String) (isSPM : Bool) (opts : Options)
    (objs : List PodSpecObj) :
    ∀ st : InstallState,
      ((objs.foldl (processObjAdd pluginId isSPM opts) st)).podfile.loaded =
        st.podfile.loaded := by
  induction objs with
  | nil => intro st; rfl
  | cons hd tl ih =>
      intro st
      rw [List.foldl_cons, ih, processObjAdd_loaded]

theorem processDeclRemove_loaded (pluginId : String) (st : RemoveState)
    (k : String) (v : JSVal) :
    (processDeclRemove pluginId st k v).podfile.loaded = st.podfile.loaded := by
  unfold processDeclRemove
  by_cases hv : v = JSVal.str "true"
  · simp only [hv, if_pos rfl]
    cases h : st.pods.getDeclaration (proofDeclaration k) with
    | none => simp [PodfileMem.removeDeclaration]
    | some c =>
        by_cases hz : c - 1 = 0 <;> simp [hz, PodfileMem.removeDeclaration]
  · simp [hv]

theorem processSourceRemove_loaded (pluginId : String) (st : RemoveState)
    (k url : String) :
    (processSourceRemove pluginId st k url).podfile.loaded = st.podfile.loaded := by
  unfold processSourceRemove
  cases h : st.pods.getSource k with
  | none => simp [PodfileMem.removeSource]
  | some e =>
      by_cases hz : e.2 - 1 = 0 <;> simp [hz, PodfileMem.removeSource]

theorem processLibRemove_loaded (pluginId : String) (isSPM : Bool) (opts : Options)
    (st : RemoveState) (k : String) (pod : Pod) :
    (processLibRemove pluginId isSPM opts st k pod).podfile.loaded =
      st.podfile.loaded := by
  unfold processLibRemove processLibRemoveCore
  by_cases hg : (!isSPM || (isSPM && !(isTrueFlag pod.nospm))) = true
  · simp only [hg, if_pos rfl]
    cases h : st.pods.getLibrary k with
    | none => simp [PodfileMem.removeSpec]
    | some e =>
        by_cases hz : e.2 - 1 = 0 <;> simp [hz, PodfileMem.removeSpec]
  · simp [hg]

theorem foldDeclRemove_loaded (pluginId : String) (ds : List (String × JSVal)) :
    ∀ st : RemoveState,
      ((ds.foldl (fun s kv => processDeclRemove pluginId s kv.1 kv.2) st)).podfile.loaded =
        st.podfile.loaded := by
  induction ds with
  | nil => intro st; rfl
  | cons hd tl ih =>
      intro st
      rw [List.foldl_cons, ih, processDeclRemove_loaded]

theorem foldSourceRemove_loaded (pluginId : String) (ss : List (String × String)) :
    ∀ st : RemoveState,
      ((ss.foldl (fun s kv => processSourceRemove pluginId s kv.1 kv.2)
        st)).podfile.loaded = st.podfile.loaded := by
  induction ss with
  | nil => intro st; rfl
  | cons hd tl ih =>
      intro st
      rw [List.foldl_cons, ih, processSourceRemove_loaded]

theorem foldLibRemove_loaded (pluginId : String) (isSPM : Bool) (opts : Options)
    (ls : List (String × Pod)) :
    ∀ st : RemoveState,
      ((ls.foldl (fun s kv => processLibRemove pluginId isSPM opts s kv.1 kv.2)
        st)).podfile.loaded = st.podfile.loaded := by
  induction ls with
  | nil => intro st; rfl
  | cons hd tl ih =>
      intro st
      rw [List.foldl_cons, ih, processLibRemove_loaded]

theorem processObjRemove_loaded (pluginId : String) (isSPM : Bool) (opts : Options)
    (st : RemoveState) (obj : PodSpecObj) (st2 : RemoveState)
    (h : processObjRemove pluginId isSPM opts st obj = Except.ok st2) :
    st2.podfile.loaded = st.podfile.loaded := by
  unfold processObjRemove at h
  cases hd : obj.declarations with
  | none => rw [hd] at h; simp at h
  | some ds =>
      rw [hd] at h
      cases hs : obj.sources with
      | none => rw [hs] at h; simp at h
      | some ss =>
          rw [hs] at h
          cases hl : obj.libraries with
          | none => rw [hl] at h; simp at h
          | some ls =>
              rw [hl] at h
              injection h with h2
              rw [← h2, foldLibRemove_loaded, foldSourceRemove_loaded,
                foldDeclRemove_loaded]

theorem foldObjsRemove_loaded (pluginId : String) (isSPM : Bool) (opts : Options)
    (objs : List PodSpecObj) :
    ∀ st st2 : RemoveState,
      foldObjsRemove pluginId isSPM opts objs st = Except.ok st2 →
      st2.podfile.loaded = st.podfile.loaded := by
  induction objs with
  | nil =>
      intro st st2 h
      unfold foldObjsRemove at h
      injection h with h2
      rw [← h2]
  | cons hd tl ih =>
      intro st st2 h
      unfold foldObjsRemove at h
      cases ho : processObjRemove pluginId isSPM opts st hd with
      | error e0 => rw [ho] at h; simp at h
      | ok mid =>
          rw [ho] at h
          rw [ih mid st2 h, processObjRemove_loaded pluginId isSPM opts st hd mid ho]

theorem isDirty_true_iff (pf : PodfileMem) :
    pf.isDirty = true ↔ pf.current ≠ pf.loaded := by
  unfold PodfileMem.isDirty
  by_cases h : pf.current = pf.loaded <;> simp [h]

/-- C4: on any install or uninstall call with a non-empty dependency
set (the uninstall call returning normally), the ledger is written
exactly once, the external installer is invoked exactly when the
manifest is written, and the manifest is written exactly when its
content changed relative to the persisted content the call loaded. -/
theorem c4_ledger_once_installer_iff_dirty :
    (∀ pluginId specs opts isSPM (s : DiskState), specs ≠ [] →
       (runAddPodSpecs pluginId specs opts isSPM s).2.ledgerWrites = 1 ∧
       (runAddPodSpecs pluginId specs opts isSPM s).2.installerInvoked =
         (runAddPodSpecs pluginId specs opts isSPM s).2.manifestWritten ∧
       ((runAddPodSpecs pluginId specs opts isSPM s).2.manifestWritten = true ↔
         (runAddPodSpecs pluginId specs opts isSPM s).1.manifest ≠ s.manifest)) ∧
    (∀ pluginId specs opts isSPM (s : DiskState) s2 e, specs ≠ [] →
       runRemovePodSpecs pluginId specs opts isSPM s = Except.ok (s2, e) →
       e.ledgerWrites = 1 ∧ e.installerInvoked = e.manifestWritten ∧
       (e.manifestWritten = true ↔ s2.manifest ≠ s.manifest)) := by
  constructor
  · intro pluginId specs opts isSPM s hne
    have hempty : specs.isEmpty = false := by
      cases specs with
      | nil => exact absurd rfl hne
      | cons a l => rfl
    have hrun : runAddPodSpecs pluginId specs opts isSPM s =
        (let st := specs.foldl (processObjAdd pluginId isSPM opts)
            ⟨s.pods, ⟨s.manifest, s.manifest⟩, []⟩
         ({ pods := st.pods,
            manifest := if st.podfile.isDirty then st.podfile.current else s.manifest },
          { ledgerWrites := 1, manifestWritten := st.podfile.isDirty,
            installerInvoked := st.podfile.isDirty, warnings := st.warnings,
            logs := [] })) := by
      unfold runAddPodSpecs
      rw [hempty]
      rfl
    rw [hrun]
    have hload : (specs.foldl (processObjAdd pluginId isSPM opts)
        ⟨s.pods, ⟨s.manifest, s.manifest⟩, []⟩).podfile.loaded = s.manifest :=
      foldObjsAdd_loaded pluginId isSPM opts specs _
    refine ⟨rfl, rfl, ?_⟩
    by_cases hd : (specs.foldl (processObjAdd pluginId isSPM opts)
        ⟨s.pods, ⟨s.manifest, s.manifest⟩, []⟩).podfile.isDirty = true
    · simp only [hd, if_pos rfl]
      have hcur := (isDirty_true_iff _).mp hd
      rw [hload] at hcur
      simp [hcur]
    · have hd2 : (specs.foldl (processObjAdd pluginId isSPM opts)
          ⟨s.pods, ⟨s.manifest, s.manifest⟩, []⟩).podfile.isDirty = false := by
        cases hb : (specs.foldl (processObjAdd pluginId isSPM opts)
            ⟨s.pods, ⟨s.manifest, s.manifest⟩, []⟩).podfile.isDirty
        · rfl
        · exact absurd hb hd
      simp [hd2]
  · intro pluginId specs opts isSPM s s2 e hne hok
    have hempty : specs.isEmpty = false := by
      cases specs with
      | nil => exact absurd rfl hne
      | cons a l => rfl
    unfold runRemovePodSpecs at hok
    rw [hempty] at hok
    simp only [Bool.false_eq_true, if_false] at hok
    cases hf : foldObjsRemove pluginId isSPM opts specs
        ⟨s.pods, ⟨s.manifest, s.manifest⟩, []⟩ with
    | error e0 => rw [hf] at hok; simp at hok
    | ok st =>
        rw [hf] at hok
        injection hok with hpair
        injection hpair with h1 h2
        have hload : st.podfile.loaded = s.manifest :=
          foldObjsRemove_loaded pluginId isSPM opts specs _ st hf
        rw [← h1, ← h2]
        refine ⟨rfl, rfl, ?_⟩
        by_cases hd : st.podfile.isDirty = true
        · simp only [hd, if_pos rfl]
          have hcur := (isDirty_true_iff _).mp hd
          rw [hload] at hcur
          simp [hcur]
        · have hd2 : st.podfile.isDirty = false := by
            cases hb : st.podfile.isDirty
            · rfl
            · exact absurd hb hd
          simp [hd2]

/-- Witness for C4: one concrete install from the empty stores and one
concrete uninstall that only decrements, both over the
single-declaration podspec. -/
theorem c4_ledger_once_installer_iff_dirty_witness :
    ((runAddPodSpecs "p" [objDecl] optsNone false diskEmpty).2.ledgerWrites = 1 ∧
     ((runAddPodSpecs "p" [objDecl] optsNone false diskEmpty).2.manifestWritten = true ↔
      (runAddPodSpecs "p" [objDecl] optsNone false diskEmpty).1.manifest ≠
        diskEmpty.manifest)) ∧
    runRemovePodSpecs "p" [objDecl] optsNone false diskD2 =
      Except.ok (diskD1, effQuiet) ∧
    effQuiet.ledgerWrites = 1 ∧
    (effQuiet.manifestWritten = true ↔ diskD1.manifest ≠ diskD2.manifest) :=
  ⟨⟨((c4_ledger_once_installer_iff_dirty.1 "p" [objDecl] optsNone false
        diskEmpty) (by decide)).1,
    ((c4_ledger_once_installer_iff_dirty.1 "p" [objDecl] optsNone false
        diskEmpty) (by decide)).2.2⟩,
   rfl,
   (c4_ledger_once_installer_iff_dirty.2 "p" [objDecl] optsNone false diskD2
      diskD1 effQuiet (by decide) rfl).1,
   (c4_ledger_once_installer_iff_dirty.2 "p" [objDecl] optsNone false diskD2
      diskD1 effQuiet (by decide) rfl).2.2⟩

theorem declsOnlyInc_refl (a : List (String × Nat)) : declsOnlyInc a a := by
  intro k
  cases h : lookupKey a k with
  | none => exact Or.inl ⟨rfl, rfl⟩
  | some c => exact Or.inr ⟨c, c, rfl, rfl, Nat.le_refl c⟩

theorem srcsOnlyInc_refl (a : List (String × (String × Nat))) : srcsOnlyInc a a := by
  intro k
  cases h : lookupKey a k with
  | none => exact Or.inl ⟨rfl, rfl⟩
  | some e => exact Or.inr ⟨e.1, e.2, e.2, rfl, rfl, Nat.le_refl e.2⟩

theorem libsOnlyInc_refl (a : List (String × (Pod × Nat))) : libsOnlyInc a a := by
  intro k
  cases h : lookupKey a k with
  | none => exact Or.inl ⟨rfl, rfl⟩
  | some e => exact Or.inr ⟨e.1, e.2, e.2, rfl, rfl, Nat.le_refl e.2⟩

theorem podsOnlyInc_refl (a : PodsJson) : podsOnlyInc a a :=
  ⟨declsOnlyInc_refl a.declarations, srcsOnlyInc_refl a.sources,
   libsOnlyInc_refl a.libraries⟩

theorem declsOnlyInc_trans {a b c : List (String × Nat)}
    (hab : declsOnlyInc a b) (hbc : declsOnlyInc b c) : declsOnlyInc a c := by
  intro k
  rcases hab k with ⟨ha, hb⟩ | ⟨c1, c2, ha, hb, hle⟩
  · rcases hbc k with ⟨hb2, hc⟩ | ⟨d1, d2, hb2, hc, hle2⟩
    · exact Or.inl ⟨ha, hc⟩
    · rw [hb] at hb2; exact Option.noConfusion hb2
  · rcases hbc k with ⟨hb2, hc⟩ | ⟨d1, d2, hb2, hc, hle2⟩
    · rw [hb] at hb2; exact Option.noConfusion hb2
    · rw [hb] at hb2
      injection hb2 with he
      exact Or.inr ⟨c1, d2, ha, hc, Nat.le_trans hle (he ▸ hle2)⟩

theorem srcsOnlyInc_trans {a b c : List (String × (String × Nat))}
    (hab : srcsOnlyInc a b) (hbc : srcsOnlyInc b c) : srcsOnlyInc a c := by
  intro k
  rcases hab k with ⟨ha, hb⟩ | ⟨u, c1, c2, ha, hb, hle⟩
  · rcases hbc k with ⟨hb2, hc⟩ | ⟨u2, d1, d2, hb2, hc, hle2⟩
    · exact Or.inl ⟨ha, hc⟩
    · rw [hb] at hb2; exact Option.noConfusion hb2
  · rcases hbc k with ⟨hb2, hc⟩ | ⟨u2, d1, d2, hb2, hc, hle2⟩
    · rw [hb] at hb2; exact Option.noConfusion hb2
    · rw [hb] at hb2
      injection hb2 with he
      injection he with he1 he2
      subst he1
      subst he2
      exact Or.inr ⟨u, c1, d2, ha, hc, Nat.le_trans hle hle2⟩

theorem libsOnlyInc_trans {a b c : List (String × (Pod × Nat))}
    (hab : libsOnlyInc a b) (hbc : libsOnlyInc b c) : libsOnlyInc a c := by
  intro k
  rcases hab k with ⟨ha, hb⟩ | ⟨p, c1, c2, ha, hb, hle⟩
  · rcases hbc k with ⟨hb2, hc⟩ | ⟨p2, d1, d2, hb2, hc, hle2⟩
    · exact Or.inl ⟨ha, hc⟩
    · rw [hb] at hb2; exact Option.noConfusion hb2
  · rcases hbc k with ⟨hb2, hc⟩ | ⟨p2, d1, d2, hb2, hc, hle2⟩
    · rw [hb] at hb2; exact Option.noConfusion hb2
    · rw [hb] at hb2
      injection hb2 with he
      injection he with he1 he2
      subst he1
      subst he2
      exact Or.inr ⟨p, c1, d2, ha, hc, Nat.le_trans hle hle2⟩

theorem podsOnlyInc_trans {a b c : PodsJson}
    (hab : podsOnlyInc a b) (hbc : podsOnlyInc b c) : podsOnlyInc a c :=
  ⟨declsOnlyInc_trans hab.1 hbc.1, srcsOnlyInc_trans hab.2.1 hbc.2.1,
   libsOnlyInc_trans hab.2.2 hbc.2.2⟩

theorem declsOnlyInc_incr (l : List (String × Nat)) (k : String) (c : Nat)
    (h : lookupKey l k = some c) : declsOnlyInc l (setAssoc l k (c + 1)) := by
  intro k2
  by_cases hk : k2 = k
  · subst hk
    exact Or.inr ⟨c, c + 1, h, lookupKey_setAssoc_self l k2 (c + 1), Nat.le_succ c⟩
  · rw [lookupKey_setAssoc_other l k k2 (c + 1) hk]
    cases h2 : lookupKey l k2 with
    | none => exact Or.inl ⟨rfl, rfl⟩
    | some c2 => exact Or.inr ⟨c2, c2, rfl, rfl, Nat.le_refl c2⟩

theorem srcsOnlyInc_incr (l : List (String × (String × Nat))) (k u : String) (c : Nat)
    (h : lookupKey l k = some (u, c)) : srcsOnlyInc l (setAssoc l k (u, c + 1)) := by
  intro k2
  by_cases hk : k2 = k
  · subst hk
    exact Or.inr ⟨u, c, c + 1, h, lookupKey_setAssoc_self l k2 (u, c + 1), Nat.le_succ c⟩
  · rw [lookupKey_setAssoc_other l k k2 (u, c + 1) hk]
    cases h2 : lookupKey l k2 with
    | none => exact Or.inl ⟨rfl, rfl⟩
    | some e => exact Or.inr ⟨e.1, e.2, e.2, rfl, rfl, Nat.le_refl e.2⟩

theorem libsOnlyInc_incr (l : List (String × (Pod × Nat))) (k : String) (p : Pod)
    (c : Nat) (h : lookupKey l k = some (p, c)) :
    libsOnlyInc l (setAssoc l k (p, c + 1)) := by
  intro k2
  by_cases hk : k2 = k
  · subst hk
    exact Or.inr ⟨p, c, c + 1, h, lookupKey_setAssoc_self l k2 (p, c + 1), Nat.le_succ c⟩
  · rw [lookupKey_setAssoc_other l k k2 (p, c + 1) hk]
    cases h2 : lookupKey l k2 with
    | none => exact Or.inl ⟨rfl, rfl⟩
    | some e => exact Or.inr ⟨e.1, e.2, e.2, rfl, rfl, Nat.le_refl e.2⟩

theorem declUnitCovered_mono {a b : PodsJson} (kv : String × JSVal)
    (hle : presenceLe a b) (h : declUnitCovered a kv) : declUnitCovered b kv :=
  fun hv => hle.1 _ (h hv)

theorem srcUnitCovered_mono {a b : PodsJson} (kv : String × String)
    (hle : presenceLe a b) (h : srcUnitCovered a kv) : srcUnitCovered b kv :=
  hle.2.1 _ h

theorem libUnitCovered_mono {isSPM : Bool} {a b : PodsJson} (kv : String × Pod)
    (hle : presenceLe a b) (h : libUnitCovered isSPM a kv) :
    libUnitCovered isSPM b kv :=
  fun hg => hle.2.2 _ (h hg)

theorem objCovered_mono {isSPM : Bool} {a b : PodsJson} (obj : PodSpecObj)
    (hle : presenceLe a b) (h : objCovered isSPM a obj) : objCovered isSPM b obj :=
  ⟨fun kv hkv => declUnitCovered_mono kv hle (h.1 kv hkv),
   fun kv hkv => srcUnitCovered_mono kv hle (h.2.1 kv hkv),
   fun kv hkv => libUnitCovered_mono kv hle (h.2.2 kv hkv)⟩

theorem specsCovered_mono {isSPM : Bool} {a b : PodsJson} (objs : List PodSpecObj)
    (hle : presenceLe a b) (h : specsCovered isSPM a objs) :
    specsCovered isSPM b objs :=
  fun obj hobj => objCovered_mono obj hle (h obj hobj)

theorem processDeclAdd_covers (st : InstallState) (k : String) (v : JSVal) :
    declUnitCovered (processDeclAdd st k v).pods (k, v) := by
  intro hv
  have hv2 : v = JSVal.str "true" := hv
  subst hv2
  unfold processDeclAdd
  simp only [if_pos rfl]
  cases h : st.pods.getDeclaration (proofDeclaration k) with
  | none =>
      simp [PodsJson.getDeclaration, PodsJson.setJsonDeclaration,
        lookupKey_setAssoc_self]
  | some c =>
      unfold PodsJson.getDeclaration at h
      simp [PodsJson.getDeclaration, PodsJson.incrementDeclaration, h,
        PodsJson.setJsonDeclaration, lookupKey_setAssoc_self]

theorem processSourceAdd_covers (st : InstallState) (k url : String) :
    srcUnitCovered (processSourceAdd st k url).pods (k, url) := by
  unfold srcUnitCovered processSourceAdd
  cases h : st.pods.getSource k with
  | none =>
      simp [PodsJson.getSource, PodsJson.setJsonSource, lookupKey_setAssoc_self]
  | some e =>
      unfold PodsJson.getSource at h
      simp [PodsJson.getSource, PodsJson.incrementSource, h,
        PodsJson.setJsonSource, lookupKey_setAssoc_self]

theorem processLibAdd_covers (pluginId : String) (isSPM : Bool) (opts : Options)
    (st : InstallState) (k : String) (pod : Pod) :
    libUnitCovered isSPM (processLibAdd pluginId isSPM opts st k pod).pods (k, pod) := by
  intro hg
  have hg2 : (!isSPM || (isSPM && !(isTrueFlag pod.nospm))) = true := hg
  unfold processLibAdd
  simp only [hg2, if_pos rfl]
  unfold processLibAddCore
  cases h : st.pods.getLibrary k with
  | none =>
      simp [PodsJson.getLibrary, PodsJson.setJsonLibrary, lookupKey_setAssoc_self]
  | some e =>
      unfold PodsJson.getLibrary at h
      simp [PodsJson.getLibrary, PodsJson.incrementLibrary, h,
        PodsJson.setJsonLibrary, lookupKey_setAssoc_self]

theorem foldDeclAdd_covers (ds : List (String × JSVal)) :
    ∀ st : InstallState, ∀ kv ∈ ds,
      declUnitCovered
        ((ds.foldl (fun s kv => processDeclAdd s kv.1 kv.2) st)).pods kv := by
  induction ds with
  | nil => intro st kv h; exact absurd h (List.not_mem_nil kv)
  | cons hd tl ih =>
      intro st kv h
      rw [List.foldl_cons]
      rcases List.mem_cons.mp h with he | ht
      · subst he
        exact declUnitCovered_mono kv (foldDeclAdd_presenceLe tl _)
          (processDeclAdd_covers st kv.1 kv.2)
      · exact ih _ kv ht

theorem foldSourceAdd_covers (ss : List (String × String)) :
    ∀ st : InstallState, ∀ kv ∈ ss,
      srcUnitCovered
        ((ss.foldl (fun s kv => processSourceAdd s kv.1 kv.2) st)).pods kv := by
  induction ss with
  | nil => intro st kv h; exact absurd h (List.not_mem_nil kv)
  | cons hd tl ih =>
      intro st kv h
      rw [List.foldl_cons]
      rcases List.mem_cons.mp h with he | ht
      · subst he
        exact srcUnitCovered_mono kv (foldSourceAdd_presenceLe tl _)
          (processSourceAdd_covers st kv.1 kv.2)
      · exact ih _ kv ht

theorem foldLibAdd_covers (pluginId : String) (isSPM : Bool) (opts : Options)
    (ls : List (String × Pod)) :
    ∀ st : InstallState, ∀ kv ∈ ls,
      libUnitCovered isSPM
        ((ls.foldl (fun s kv => processLibAdd pluginId isSPM opts s kv.1 kv.2)
          st)).pods kv := by
  induction ls with
  | nil => intro st kv h; exact absurd h (List.not_mem_nil kv)
  | cons hd tl ih =>
      intro st kv h
      rw [List.foldl_cons]
      rcases List.mem_cons.mp h with he | ht
      · subst he
        exact libUnitCovered_mono kv (foldLibAdd_presenceLe pluginId isSPM opts tl _)
          (processLibAdd_covers pluginId isSPM opts st kv.1 kv.2)
      · exact ih _ kv ht

theorem processObjAdd_eq (pluginId : String) (isSPM : Bool) (opts : Options)
    (st : InstallState) (obj : PodSpecObj) :
    processObjAdd pluginId isSPM opts st obj =
      (obj.libraries.getD []).foldl
        (fun s kv => processLibAdd pluginId isSPM opts s kv.1 kv.2)
        ((obj.sources.getD []).foldl (fun s kv => processSourceAdd s kv.1 kv.2)
          ((obj.declarations.getD []).foldl
            (fun s kv => processDeclAdd s kv.1 kv.2) st)) := rfl

theorem processObjAdd_covers (pluginId : String) (isSPM : Bool) (opts : Options)
    (st : InstallState) (obj : PodSpecObj) :
    objCovered isSPM (processObjAdd pluginId isSPM opts st obj).pods obj := by
  rw [processObjAdd_eq]
  refine ⟨?_, ?_, ?_⟩
  · intro kv hkv
    exact declUnitCovered_mono kv
      (presenceLe_trans (foldSourceAdd_presenceLe (obj.sources.getD []) _)
        (foldLibAdd_presenceLe pluginId isSPM opts (obj.libraries.getD []) _))
      (foldDeclAdd_covers (obj.declarations.getD []) st kv hkv)
  · intro kv hkv
    exact srcUnitCovered_mono kv
      (foldLibAdd_presenceLe pluginId isSPM opts (obj.libraries.getD []) _)
      (foldSourceAdd_covers (obj.sources.getD []) _ kv hkv)
  · intro kv hkv
    exact foldLibAdd_covers pluginId isSPM opts (obj.libraries.getD []) _ kv hkv

theorem foldObjsAdd_covers (pluginId : String) (isSPM : Bool) (opts : Options)
    (objs : List PodSpecObj) :
    ∀ st : InstallState,
      specsCovered isSPM ((objs.foldl (processObjAdd pluginId isSPM opts) st)).pods
        objs := by
  induction objs with
  | nil => intro st obj h; exact absurd h (List.not_mem_nil obj)
  | cons hd tl ih =>
      intro st obj h
      rw [List.foldl_cons]
      rcases List.mem_cons.mp h with he | ht
      · subst he
        exact objCovered_mono obj (foldObjsAdd_presenceLe pluginId isSPM opts tl _)
          (processObjAdd_covers pluginId isSPM opts st obj)
      · exact ih _ obj ht

theorem processDeclAdd_fix (st : InstallState) (k : String) (v : JSVal)
    (hcov : declUnitCovered st.pods (k, v)) :
    (processDeclAdd st k v).podfile = st.podfile ∧
    podsOnlyInc st.pods (processDeclAdd st k v).pods := by
  by_cases hv : v = JSVal.str "true"
  · subst hv
    have hsome : (st.pods.getDeclaration (proofDeclaration k)).isSome = true :=
      hcov rfl
    unfold processDeclAdd
    simp only [if_pos rfl]
    cases h : st.pods.getDeclaration (proofDeclaration k) with
    | none => rw [h] at hsome; exact absurd hsome (by simp)
    | some c =>
        unfold PodsJson.getDeclaration at h
        constructor
        · simp [PodsJson.incrementDeclaration, h]
        · simp only [PodsJson.incrementDeclaration, h]
          exact ⟨declsOnlyInc_incr st.pods.declarations (proofDeclaration k) c h,
            srcsOnlyInc_refl _, libsOnlyInc_refl _⟩
  · simp [processDeclAdd, hv]
    exact podsOnlyInc_refl st.pods

theorem processSourceAdd_fix (st : InstallState) (k url : String)
    (hcov : srcUnitCovered st.pods (k, url)) :
    (processSourceAdd st k url).podfile = st.podfile ∧
    podsOnlyInc st.pods (processSourceAdd st k url).pods := by
  have hsome : (st.pods.getSource k).isSome = true := hcov
  unfold processSourceAdd
  cases h : st.pods.getSource k with
  | none => rw [h] at hsome; exact absurd hsome (by simp)
  | some e =>
      unfold PodsJson.getSource at h
      constructor
      · simp [PodsJson.incrementSource, h]
      · simp only [PodsJson.incrementSource, h]
        have h2 : lookupKey st.pods.sources k = some (e.1, e.2) := by
          rw [h]
        exact ⟨declsOnlyInc_refl _,
          srcsOnlyInc_incr st.pods.sources k e.1 e.2 h2, libsOnlyInc_refl _⟩

theorem processLibAdd_fix (pluginId : String) (isSPM : Bool) (opts : Options)
    (st : InstallState) (k : String) (pod : Pod)
    (hcov : libUnitCovered isSPM st.pods (k, pod)) :
    (processLibAdd pluginId isSPM opts st k pod).podfile = st.podfile ∧
    podsOnlyInc st.pods (processLibAdd pluginId isSPM opts st k pod).pods := by
  by_cases hg : (!isSPM || (isSPM && !(isTrueFlag pod.nospm))) = true
  · have hsome : (st.pods.getLibrary k).isSome = true := hcov hg
    unfold processLibAdd
    simp only [hg, if_pos rfl]
    unfold processLibAddCore
    cases h : st.pods.getLibrary k with
    | none => rw [h] at hsome; exact absurd hsome (by simp)
    | some e =>
        unfold PodsJson.getLibrary at h
        constructor
        · simp [PodsJson.incrementLibrary, h]
        · simp only [PodsJson.incrementLibrary, h]
          have h2 : lookupKey st.pods.libraries k = some (e.1, e.2) := by
            rw [h]
          exact ⟨declsOnlyInc_refl _, srcsOnlyInc_refl _,
            libsOnlyInc_incr st.pods.libraries k e.1 e.2 h2⟩
  · simp [processLibAdd, hg]
    exact podsOnlyInc_refl st.pods

theorem foldDeclAdd_fix (ds : List (String × JSVal)) :
    ∀ st : InstallState, (∀ kv ∈ ds, declUnitCovered st.pods kv) →
      ((ds.foldl (fun s kv => processDeclAdd s kv.1 kv.2) st)).podfile = st.podfile ∧
      podsOnlyInc st.pods
        ((ds.foldl (fun s kv => processDeclAdd s kv.1 kv.2) st)).pods := by
  induction ds with
  | nil => intro st h; exact ⟨rfl, podsOnlyInc_refl st.pods⟩
  | cons hd tl ih =>
      intro st h
      rw [List.foldl_cons]
      have hstep := processDeclAdd_fix st hd.1 hd.2 (h hd (List.mem_cons_self hd tl))
      have hcov2 : ∀ kv ∈ tl, declUnitCovered (processDeclAdd st hd.1 hd.2).pods kv :=
        fun kv hkv => declUnitCovered_mono kv (processDeclAdd_presenceLe st hd.1 hd.2)
          (h kv (List.mem_cons_of_mem hd hkv))
      have hrest := ih _ hcov2
      exact ⟨by rw [hrest.1, hstep.1], podsOnlyInc_trans hstep.2 hrest.2⟩

theorem foldSourceAdd_fix (ss : List (String × String)) :
    ∀ st : InstallState, (∀ kv ∈ ss, srcUnitCovered st.pods kv) →
      ((ss.foldl (fun s kv => processSourceAdd s kv.1 kv.2) st)).podfile = st.podfile ∧
      podsOnlyInc st.pods
        ((ss.foldl (fun s kv => processSourceAdd s kv.1 kv.2) st)).pods := by
  induction ss with
  | nil => intro st h; exact ⟨rfl, podsOnlyInc_refl st.pods⟩
  | cons hd tl ih =>
      intro st h
      rw [List.foldl_cons]
      have hstep := processSourceAdd_fix st hd.1 hd.2 (h hd (List.mem_cons_self hd tl))
      have hcov2 : ∀ kv ∈ tl, srcUnitCovered (processSourceAdd st hd.1 hd.2).pods kv :=
        fun kv hkv => srcUnitCovered_mono kv (processSourceAdd_presenceLe st hd.1 hd.2)
          (h kv (List.mem_cons_of_mem hd hkv))
      have hrest := ih _ hcov2
      exact ⟨by rw [hrest.1, hstep.1], podsOnlyInc_trans hstep.2 hrest.2⟩

theorem foldLibAdd_fix (pluginId : String) (isSPM : Bool) (opts : Options)
    (ls : List (String × Pod)) :
    ∀ st : InstallState, (∀ kv ∈ ls, libUnitCovered isSPM st.pods kv) →
      ((ls.foldl (fun s kv => processLibAdd pluginId isSPM opts s kv.1 kv.2)
        st)).podfile = st.podfile ∧
      podsOnlyInc st.pods
        ((ls.foldl (fun s kv => processLibAdd pluginId isSPM opts s kv.1 kv.2)
          st)).pods := by
  induction ls with
  | nil => intro st h; exact ⟨rfl, podsOnlyInc_refl st.pods⟩
  | cons hd tl ih =>
      intro st h
      rw [List.foldl_cons]
      have hstep := processLibAdd_fix pluginId isSPM opts st hd.1 hd.2
        (h hd (List.mem_cons_self hd tl))
      have hcov2 : ∀ kv ∈ tl,
          libUnitCovered isSPM (processLibAdd pluginId isSPM opts st hd.1 hd.2).pods kv :=
        fun kv hkv => libUnitCovered_mono kv
          (processLibAdd_presenceLe pluginId isSPM opts st hd.1 hd.2)
          (h kv (List.mem_cons_of_mem hd hkv))
      have hrest := ih _ hcov2
      exact ⟨by rw [hrest.1, hstep.1], podsOnlyInc_trans hstep.2 hrest.2⟩

theorem processObjAdd_fix (pluginId : String) (isSPM : Bool) (opts : Options)
    (st : InstallState) (obj : PodSpecObj)
    (hcov : objCovered isSPM st.pods obj) :
    (processObjAdd pluginId isSPM opts st obj).podfile = st.podfile ∧
    podsOnlyInc st.pods (processObjAdd pluginId isSPM opts st obj).pods := by
  rw [processObjAdd_eq]
  have h1 := foldDeclAdd_fix (obj.declarations.getD []) st hcov.1
  have hle1 := foldDeclAdd_presenceLe (obj.declarations.getD []) st
  have h2 := foldSourceAdd_fix (obj.sources.getD []) _
    (fun kv hkv => srcUnitCovered_mono kv hle1 (hcov.2.1 kv hkv))
  have hle2 := foldSourceAdd_presenceLe (obj.sources.getD [])
    ((obj.declarations.getD []).foldl (fun s kv => processDeclAdd s kv.1 kv.2) st)
  have h3 := foldLibAdd_fix pluginId isSPM opts (obj.libraries.getD []) _
    (fun kv hkv => libUnitCovered_mono kv (presenceLe_trans hle1 hle2)
      (hcov.2.2 kv hkv))
  exact ⟨by rw [h3.1, h2.1, h1.1],
    podsOnlyInc_trans h1.2 (podsOnlyInc_trans h2.2 h3.2)⟩

theorem foldObjsAdd_fix (pluginId : String) (isSPM : Bool) (opts : Options)
    (objs : List PodSpecObj) :
    ∀ st : InstallState, specsCovered isSPM st.pods objs →
      ((objs.foldl (processObjAdd pluginId isSPM opts) st)).podfile = st.podfile ∧
      podsOnlyInc st.pods
        ((objs.foldl (processObjAdd pluginId isSPM opts) st)).pods := by
  induction objs with
  | nil => intro st h; exact ⟨rfl, podsOnlyInc_refl st.pods⟩
  | cons hd tl ih =>
      intro st h
      rw [List.foldl_cons]
      have hstep := processObjAdd_fix pluginId isSPM opts st hd
        (h hd (List.mem_cons_self hd tl))
      have hcov2 : specsCovered isSPM (processObjAdd pluginId isSPM opts st hd).pods tl :=
        fun obj hobj => objCovered_mono obj
          (processObjAdd_presenceLe pluginId isSPM opts st hd)
          (h obj (List.mem_cons_of_mem hd hobj))
      have hrest := ih _ hcov2
      exact ⟨by rw [hrest.1, hstep.1], podsOnlyInc_trans hstep.2 hrest.2⟩

theorem processDeclAdd_consistent (st : InstallState) (k : String) (v : JSVal)
    (h : consistentState st.pods st.podfile.current) :
    consistentState (processDeclAdd st k v).pods
      (processDeclAdd st k v).podfile.current := by
  by_cases hv : v = JSVal.str "true"
  · subst hv
    cases hget : st.pods.getDeclaration (proofDeclaration k) with
    | some c =>
        have hget2 : lookupKey st.pods.declarations (proofDeclaration k) = some c :=
          hget
        have he : processDeclAdd st k (JSVal.str "true") =
            { st with pods :=
                { declarations :=
                    setAssoc st.pods.declarations (proofDeclaration k) (c + 1),
                  sources := st.pods.sources, libraries := st.pods.libraries } } := by
          simp [processDeclAdd, PodsJson.getDeclaration, hget2,
            PodsJson.incrementDeclaration, PodsJson.setJsonDeclaration]
        rw [he]
        refine ⟨?_, h.2.1, h.2.2⟩
        intro k2 c2 hl
        by_cases hk : k2 = proofDeclaration k
        · subst hk
          exact h.1 k2 c hget2
        · rw [lookupKey_setAssoc_other _ _ _ _ hk] at hl
          exact h.1 k2 c2 hl
    | none =>
        have hget2 : lookupKey st.pods.declarations (proofDeclaration k) = none := hget
        have he : processDeclAdd st k (JSVal.str "true") =
            { st with
              pods :=
                { declarations := setAssoc st.pods.declarations (proofDeclaration k) 1,
                  sources := st.pods.sources, libraries := st.pods.libraries },
              podfile :=
                { loaded := st.podfile.loaded,
                  current :=
                    st.podfile.current.addDeclaration (proofDeclaration k) } } := by
          simp [processDeclAdd, PodsJson.getDeclaration, hget2,
            PodsJson.setJsonDeclaration, PodfileMem.addDeclaration]
        rw [he]
        refine ⟨?_, ?_, ?_⟩
        · intro k2 c2 hl
          by_cases hk : k2 = proofDeclaration k
          · subst hk
            exact mem_addDeclaration_self st.podfile.current k2
          · rw [lookupKey_setAssoc_other _ _ _ _ hk] at hl
            exact mem_addDeclaration_mono st.podfile.current (proofDeclaration k) k2
              (h.1 k2 c2 hl)
        · intro k2 u c2 hl
          rw [addDeclaration_sources]
          exact h.2.1 k2 u c2 hl
        · intro k2 p c2 hl
          rw [addDeclaration_specs]
          exact h.2.2 k2 p c2 hl
  · simp only [processDeclAdd, if_neg hv]
    exact h

theorem processSourceAdd_consistent (st : InstallState) (k url : String)
    (h : consistentState st.pods st.podfile.current) :
    consistentState (processSourceAdd st k url).pods
      (processSourceAdd st k url).podfile.current := by
  cases hget : st.pods.getSource k with
  | some e =>
      obtain ⟨u0, c0⟩ := e
      have hget2 : lookupKey st.pods.sources k = some (u0, c0) := hget
      have he : processSourceAdd st k url =
          { st with pods :=
              { declarations := st.pods.declarations,
                sources := setAssoc st.pods.sources k (u0, c0 + 1),
                libraries := st.pods.libraries } } := by
        simp [processSourceAdd, PodsJson.getSource, hget2,
          PodsJson.incrementSource, PodsJson.setJsonSource]
      rw [he]
      refine ⟨h.1, ?_, h.2.2⟩
      intro k2 u c2 hl
      by_cases hk : k2 = k
      · subst hk
        rw [lookupKey_setAssoc_self] at hl
        injection hl with he2
        injection he2 with he3 he4
        subst he3
        exact h.2.1 k2 u0 c0 hget2
      · rw [lookupKey_setAssoc_other _ _ _ _ hk] at hl
        exact h.2.1 k2 u c2 hl
  | none =>
      have hget2 : lookupKey st.pods.sources k = none := hget
      have he : processSourceAdd st k url =
          { st with
            pods :=
              { declarations := st.pods.declarations,
                sources := setAssoc st.pods.sources k (url, 1),
                libraries := st.pods.libraries },
            podfile :=
              { loaded := st.podfile.loaded,
                current := st.podfile.current.addSource url } } := by
        simp [processSourceAdd, PodsJson.getSource, hget2,
          PodsJson.setJsonSource, PodfileMem.addSource]
      rw [he]
      refine ⟨?_, ?_, ?_⟩
      · intro k2 c2 hl
        rw [addSource_declarations]
        exact h.1 k2 c2 hl
      · intro k2 u c2 hl
        by_cases hk : k2 = k
        · subst hk
          rw [lookupKey_setAssoc_self] at hl
          injection hl with he2
          injection he2 with he3 he4
          subst he3
          exact mem_addSource_self st.podfile.current url
        · rw [lookupKey_setAssoc_other _ _ _ _ hk] at hl
          exact mem_addSource_mono st.podfile.current url u (h.2.1 k2 u c2 hl)
      · intro k2 p c2 hl
        rw [addSource_specs]
        exact h.2.2 k2 p c2 hl

theorem processLibAdd_consistent (pluginId : String) (isSPM : Bool) (opts : Options)
    (st : InstallState) (k : String) (pod : Pod)
    (h : consistentState st.pods st.podfile.current) :
    consistentState (processLibAdd pluginId isSPM opts st k pod).pods
      (processLibAdd pluginId isSPM opts st k pod).podfile.current := by
  by_cases hg : (!isSPM || (isSPM && !(isTrueFlag pod.nospm))) = true
  · cases hget : st.pods.getLibrary k with
    | some e =>
        obtain ⟨p0, c0⟩ := e
        have hget2 : lookupKey st.pods.libraries k = some (p0, c0) := hget
        have he : processLibAdd pluginId isSPM opts st k pod =
            { st with
              pods :=
                { declarations := st.pods.declarations, sources := st.pods.sources,
                  libraries := setAssoc st.pods.libraries k (p0, c0 + 1) },
              warnings := st.warnings ++
                [{ pluginId := pluginId,
                   podName := (replacePodSpecVariables pod opts).name,
                   installedSpec := p0.spec }] } := by
          simp [processLibAdd, hg, processLibAddCore, PodsJson.getLibrary, hget2,
            PodsJson.incrementLibrary, PodsJson.setJsonLibrary]
        rw [he]
        refine ⟨h.1, h.2.1, ?_⟩
        intro k2 p c2 hl
        by_cases hk : k2 = k
        · subst hk
          rw [lookupKey_setAssoc_self] at hl
          injection hl with he2
          injection he2 with he3 he4
          subst he3
          exact h.2.2 k2 p0 c0 hget2
        · rw [lookupKey_setAssoc_other _ _ _ _ hk] at hl
          exact h.2.2 k2 p c2 hl
    | none =>
        have hget2 : lookupKey st.pods.libraries k = none := hget
        have he : processLibAdd pluginId isSPM opts st k pod =
            { st with
              pods :=
                { declarations := st.pods.declarations, sources := st.pods.sources,
                  libraries :=
                    setAssoc st.pods.libraries k (replacePodSpecVariables pod opts, 1) },
              podfile :=
                { loaded := st.podfile.loaded,
                  current :=
                    st.podfile.current.addSpec (replacePodSpecVariables pod opts).name
                      (replacePodSpecVariables pod opts) } } := by
          simp [processLibAdd, hg, processLibAddCore, PodsJson.getLibrary, hget2,
            PodsJson.setJsonLibrary, PodfileMem.addSpec]
        rw [he]
        refine ⟨?_, ?_, ?_⟩
        · intro k2 c2 hl
          rw [addSpec_declarations]
          exact h.1 k2 c2 hl
        · intro k2 u c2 hl
          rw [addSpec_sources]
          exact h.2.1 k2 u c2 hl
        · intro k2 p c2 hl
          by_cases hk : k2 = k
          · subst hk
            rw [lookupKey_setAssoc_self] at hl
            injection hl with he2
            injection he2 with he3 he4
            subst he3
            rw [lookupKey_addSpec_self]
            rfl
          · rw [lookupKey_setAssoc_other _ _ _ _ hk] at hl
            exact isSome_addSpec_mono st.podfile.current
              (replacePodSpecVariables pod opts).name
              (replacePodSpecVariables pod opts) p.name (h.2.2 k2 p c2 hl)
  · simp only [processLibAdd, hg, Bool.false_eq_true, if_false]
    exact h

theorem foldDeclAdd_consistent (ds : List (String × JSVal)) :
    ∀ st : InstallState, consistentState st.pods st.podfile.current →
      consistentState ((ds.foldl (fun s kv => processDeclAdd s kv.1 kv.2) st)).pods
        ((ds.foldl (fun s kv => processDeclAdd s kv.1 kv.2) st)).podfile.current := by
  induction ds with
  | nil => intro st h; exact h
  | cons hd tl ih =>
      intro st h
      rw [List.foldl_cons]
      exact ih _ (processDeclAdd_consistent st hd.1 hd.2 h)

theorem foldSourceAdd_consistent (ss : List (String × String)) :
    ∀ st : InstallState, consistentState st.pods st.podfile.current →
      consistentState ((ss.foldl (fun s kv => processSourceAdd s kv.1 kv.2) st)).pods
        ((ss.foldl (fun s kv => processSourceAdd s kv.1 kv.2) st)).podfile.current := by
  induction ss with
  | nil => intro st h; exact h
  | cons hd tl ih =>
      intro st h
      rw [List.foldl_cons]
      exact ih _ (processSourceAdd_consistent st hd.1 hd.2 h)

theorem foldLibAdd_consistent (pluginId : String) (isSPM : Bool) (opts : Options)
    (ls : List (String × Pod)) :
    ∀ st : InstallState, consistentState st.pods st.podfile.current →
      consistentState
        ((ls.foldl (fun s kv => processLibAdd pluginId isSPM opts s kv.1 kv.2)
          st)).pods
        ((ls.foldl (fun s kv => processLibAdd pluginId isSPM opts s kv.1 kv.2)
          st)).podfile.current := by
  induction ls with
  | nil => intro st h; exact h
  | cons hd tl ih =>
      intro st h
      rw [List.foldl_cons]
      exact ih _ (processLibAdd_consistent pluginId isSPM opts st hd.1 hd.2 h)

theorem processObjAdd_consistent (pluginId : String) (isSPM : Bool) (opts : Options)
    (st : InstallState) (obj : PodSpecObj)
    (h : consistentState st.pods st.podfile.current) :
    consistentState (processObjAdd pluginId isSPM opts st obj).pods
      (processObjAdd pluginId isSPM opts st obj).podfile.current := by
  rw [processObjAdd_eq]
  exact foldLibAdd_consistent pluginId isSPM opts (obj.libraries.getD []) _
    (foldSourceAdd_consistent (obj.sources.getD []) _
      (foldDeclAdd_consistent (obj.declarations.getD []) st h))

theorem foldObjsAdd_consistent (pluginId : String) (isSPM : Bool) (opts : Options)
    (objs : List PodSpecObj) :
    ∀ st : InstallState, consistentState st.pods st.podfile.current →
      consistentState ((objs.foldl (processObjAdd pluginId isSPM opts) st)).pods
        ((objs.foldl (processObjAdd pluginId isSPM opts) st)).podfile.current := by
  induction objs with
  | nil => intro st h; exact h
  | cons hd tl ih =>
      intro st h
      rw [List.foldl_cons]
      exact ih _ (processObjAdd_consistent pluginId isSPM opts st hd h)

theorem covered_consistent_entries (isSPM : Bool) (pj : PodsJson) (m : Manifest)
    (specs : List PodSpecObj) (hcov : specsCovered isSPM pj specs)
    (hcons : consistentState pj m) : specsEntriesPresent isSPM pj m specs := by
  intro obj hobj
  refine ⟨?_, ?_, ?_⟩
  · intro kv hkv hv
    have hsome := (hcov obj hobj).1 kv hkv hv
    rcases Option.isSome_iff_exists.mp hsome with ⟨c, hc⟩
    unfold PodsJson.getDeclaration at hc
    exact hcons.1 (proofDeclaration kv.1) c hc
  · intro kv hkv
    have hsome := (hcov obj hobj).2.1 kv hkv
    rcases Option.isSome_iff_exists.mp hsome with ⟨e, he⟩
    unfold PodsJson.getSource at he
    exact ⟨e.1, e.2, by rw [he], hcons.2.1 kv.1 e.1 e.2 (by rw [he])⟩
  · intro kv hkv hg
    have hsome := (hcov obj hobj).2.2 kv hkv hg
    rcases Option.isSome_iff_exists.mp hsome with ⟨e, he⟩
    unfold PodsJson.getLibrary at he
    exact ⟨e.1, e.2, by rw [he], hcons.2.2 kv.1 e.1 e.2 (by rw [he])⟩

theorem isDirty_false_iff (pf : PodfileMem) :
    pf.isDirty = false ↔ pf.current = pf.loaded := by
  unfold PodfileMem.isDirty
  by_cases h : pf.current = pf.loaded <;> simp [h]

theorem runAdd_components (pluginId : String) (specs : List PodSpecObj)
    (opts : Options) (isSPM : Bool) (s : DiskState) (h : specs ≠ []) :
    (runAddPodSpecs pluginId specs opts isSPM s).1.pods =
      ((specs.foldl (processObjAdd pluginId isSPM opts)
        ⟨s.pods, ⟨s.manifest, s.manifest⟩, []⟩)).pods ∧
    (runAddPodSpecs pluginId specs opts isSPM s).1.manifest =
      ((specs.foldl (processObjAdd pluginId isSPM opts)
        ⟨s.pods, ⟨s.manifest, s.manifest⟩, []⟩)).podfile.current ∧
    (runAddPodSpecs pluginId specs opts isSPM s).2.manifestWritten =
      ((specs.foldl (processObjAdd pluginId isSPM opts)
        ⟨s.pods, ⟨s.manifest, s.manifest⟩, []⟩)).podfile.isDirty ∧
    (runAddPodSpecs pluginId specs opts isSPM s).2.installerInvoked =
      ((specs.foldl (processObjAdd pluginId isSPM opts)
        ⟨s.pods, ⟨s.manifest, s.manifest⟩, []⟩)).podfile.isDirty := by
  have hempty : specs.isEmpty = false := by
    cases specs with
    | nil => exact absurd rfl h
    | cons a l => rfl
  have hrun : runAddPodSpecs pluginId specs opts isSPM s =
      (let st := specs.foldl (processObjAdd pluginId isSPM opts)
          ⟨s.pods, ⟨s.manifest, s.manifest⟩, []⟩
       ({ pods := st.pods,
          manifest := if st.podfile.isDirty then st.podfile.current else s.manifest },
        { ledgerWrites := 1, manifestWritten := st.podfile.isDirty,
          installerInvoked := st.podfile.isDirty, warnings := st.warnings,
          logs := [] })) := by
    unfold runAddPodSpecs
    rw [hempty]
    rfl
  rw [hrun]
  refine ⟨rfl, ?_, rfl, rfl⟩
  by_cases hd : (specs.foldl (processObjAdd pluginId isSPM opts)
      ⟨s.pods, ⟨s.manifest, s.manifest⟩, []⟩).podfile.isDirty = true
  · simp [hd]
  · have hd2 : (specs.foldl (processObjAdd pluginId isSPM opts)
        ⟨s.pods, ⟨s.manifest, s.manifest⟩, []⟩).podfile.isDirty = false := by
      cases hb : (specs.foldl (processObjAdd pluginId isSPM opts)
          ⟨s.pods, ⟨s.manifest, s.manifest⟩, []⟩).podfile.isDirty
      · rfl
      · exact absurd hb hd
    have hcur := (isDirty_false_iff _).mp hd2
    simp only [hd2, Bool.false_eq_true, if_false]
    rw [hcur, foldObjsAdd_loaded]

/-- C5: installing the same dependency set twice in a row, from a state
where the manifest mirrors the ledger, is idempotent on the manifest:
the first call leaves a manifest containing an entry for every
processed unit, and the second call leaves the manifest content
unchanged, reports it clean, does not invoke the external installer,
and changes the ledger only by incrementing reference counts. -/
theorem c5_idempotent_reinstall (pluginId : String) (specs : List PodSpecObj)
    (opts : Options) (isSPM : Bool) (s0 : DiskState)
    (hcons : consistentState s0.pods s0.manifest) :
    specsEntriesPresent isSPM (runAddPodSpecs pluginId specs opts isSPM s0).1.pods
      (runAddPodSpecs pluginId specs opts isSPM s0).1.manifest specs ∧
    (runAddPodSpecs pluginId specs opts isSPM
      (runAddPodSpecs pluginId specs opts isSPM s0).1).1.manifest =
      (runAddPodSpecs pluginId specs opts isSPM s0).1.manifest ∧
    (runAddPodSpecs pluginId specs opts isSPM
      (runAddPodSpecs pluginId specs opts isSPM s0).1).2.manifestWritten = false ∧
    (runAddPodSpecs pluginId specs opts isSPM
      (runAddPodSpecs pluginId specs opts isSPM s0).1).2.installerInvoked = false ∧
    podsOnlyInc (runAddPodSpecs pluginId specs opts isSPM s0).1.pods
      (runAddPodSpecs pluginId specs opts isSPM
        (runAddPodSpecs pluginId specs opts isSPM s0).1).1.pods := by
  by_cases hne : specs = []
  · subst hne
    refine ⟨fun obj hobj => absurd hobj (List.not_mem_nil obj), rfl, rfl, rfl,
      podsOnlyInc_refl _⟩
  · set s1 := (runAddPodSpecs pluginId specs opts isSPM s0).1 with hs1
    obtain ⟨hp1, hm1, hw1, hi1⟩ := runAdd_components pluginId specs opts isSPM s0 hne
    obtain ⟨hp2, hm2, hw2, hi2⟩ := runAdd_components pluginId specs opts isSPM s1 hne
    set stf := specs.foldl (processObjAdd pluginId isSPM opts)
        ⟨s0.pods, ⟨s0.manifest, s0.manifest⟩, []⟩ with hstf
    set stg := specs.foldl (processObjAdd pluginId isSPM opts)
        ⟨s1.pods, ⟨s1.manifest, s1.manifest⟩, []⟩ with hstg
    have hcov1 : specsCovered isSPM stf.pods specs := by
      rw [hstf]
      exact foldObjsAdd_covers pluginId isSPM opts specs _
    have hcons1 : consistentState stf.pods stf.podfile.current := by
      rw [hstf]
      exact foldObjsAdd_consistent pluginId isSPM opts specs _ hcons
    have hcovs1 : specsCovered isSPM s1.pods specs := by
      rw [hp1]
      exact hcov1
    have hconss1 : consistentState s1.pods s1.manifest := by
      rw [hp1, hm1]
      exact hcons1
    have hfix := foldObjsAdd_fix pluginId isSPM opts specs
      ⟨s1.pods, ⟨s1.manifest, s1.manifest⟩, []⟩ hcovs1
    rw [← hstg] at hfix
    have hdirty2 : stg.podfile.isDirty = false :=
      (isDirty_false_iff stg.podfile).mpr (by rw [hfix.1])
    refine ⟨covered_consistent_entries isSPM s1.pods s1.manifest specs hcovs1 hconss1,
      ?_, ?_, ?_, ?_⟩
    · rw [hm2, hfix.1]
    · rw [hw2, hdirty2]
    · rw [hi2, hdirty2]
    · rw [hp2]
      exact hfix.2

/-- Witness for C5: the single-declaration podspec installed twice from
the empty stores, whose consistency is immediate. -/
theorem c5_idempotent_reinstall_witness :
    consistentState diskEmpty.pods diskEmpty.manifest ∧
    (specsEntriesPresent false
       (runAddPodSpecs "p" [objDecl] optsNone false diskEmpty).1.pods
       (runAddPodSpecs "p" [objDecl] optsNone false diskEmpty).1.manifest [objDecl] ∧
     (runAddPodSpecs "p" [objDecl] optsNone false
       (runAddPodSpecs "p" [objDecl] optsNone false diskEmpty).1).1.manifest =
       (runAddPodSpecs "p" [objDecl] optsNone false diskEmpty).1.manifest ∧
     (runAddPodSpecs "p" [objDecl] optsNone false
       (runAddPodSpecs "p" [objDecl] optsNone false diskEmpty).1).2.manifestWritten =
       false ∧
     (runAddPodSpecs "p" [objDecl] optsNone false
       (runAddPodSpecs "p" [objDecl] optsNone false diskEmpty).1).2.installerInvoked =
       false ∧
     podsOnlyInc (runAddPodSpecs "p" [objDecl] optsNone false diskEmpty).1.pods
       (runAddPodSpecs "p" [objDecl] optsNone false
         (runAddPodSpecs "p" [objDecl] optsNone false diskEmpty).1).1.pods) :=
  have hc : consistentState diskEmpty.pods diskEmpty.manifest :=
    ⟨fun _ _ h => Option.noConfusion h, fun _ _ _ h => Option.noConfusion h,
     fun _ _ _ h => Option.noConfusion h⟩
  ⟨hc, c5_idempotent_reinstall "p" [objDecl] optsNone false diskEmpty hc⟩

end CordovaPods
